import Mathlib

/-!
Verification of the rsqlite3 interactive SQL shell (hivevm/geopackage repository)
against its natural-language specification.

The development shallowly embeds the Rust sources:
  - `src/db.rs`           : the `QueryResult` record,
  - `src/output.rs`       : the eight output-mode formatters,
  - `src/cli_state.rs`    : the REPL state and `.output` redirection logic,
  - `src/lsp.rs`          : the in-process language service (word extraction,
                            context classification, alias extraction, completion),
  - `src/completion.rs`   : the line-editor completion helper,
  - `src/dot_commands.rs` : the dot-command dispatcher and `.read` control flow.

Strings are modelled as Lean `String`/`List Char`.  The Rust sources index by
bytes and classify characters with `char::is_alphanumeric` / `is_whitespace`
(Unicode); the embedding works at character granularity with the ASCII
classifiers of Lean's `Char`.  On ASCII text - which covers the whole claim
suite - the two coincide, because every byte index is a character index and the
Unicode classifiers agree with the ASCII ones on ASCII code points.
-/

namespace Rsqlite3

/-! ## Data model (src/db.rs, src/cli_state.rs) -/

/-- Query result, from `db.rs`: column names, stringified rows (engine nulls
already encoded as the literal `"NULL"`), and an affected-row count. -/
structure QueryResult where
  columns : List String
  rows : List (List String)
  rows_affected : Option Nat
deriving Repr, DecidableEq

/-- Output modes, from `cli_state.rs`. -/
inductive OutputMode where
  | list | csv | column | line | json | jsonl | table | markdown
deriving Repr, DecidableEq

/-- REPL state, from `cli_state.rs`.  The output file handle is modelled by
its presence (`output_file : Bool`); the embedding does not track file
contents. -/
structure CliState where
  output_mode : OutputMode
  show_headers : Bool
  separator : String
  null_value : String
  echo : Bool
  bail : Bool
  output_file : Bool
  timer : Bool
  database_path : String
  color_enabled : Bool
  column_widths : List Nat
  saved_output_mode : Option OutputMode
deriving Repr, DecidableEq

/-- `CliState::new`, from `cli_state.rs` (colour support is an environment
probe in the source; it is a parameter here). -/
def CliState.new (database_path : String) (color : Bool) : CliState :=
  { output_mode := OutputMode.table
    show_headers := true
    separator := "|"
    null_value := ""
    echo := false
    bail := false
    output_file := false
    timer := false
    database_path := database_path
    color_enabled := color
    column_widths := []
    saved_output_mode := none }

/-! ## String primitives

Character-list implementations of the string operations the sources use
(`to_uppercase`, `to_lowercase`, `starts_with`, `contains`, `replace` with a
one-character pattern, `split`).  They match the library operations on the
ASCII inputs this development works with, and being structurally recursive
they reduce inside `decide`/`rfl`. -/

/-- Rust `str::to_uppercase` (ASCII behaviour). -/
def toUpperS (s : String) : String := ⟨s.data.map Char.toUpper⟩

/-- Rust `str::to_lowercase` (ASCII behaviour). -/
def toLowerS (s : String) : String := ⟨s.data.map Char.toLower⟩

/-- Rust `str::starts_with`. -/
def startsWithS (s pre : String) : Bool := pre.data.isPrefixOf s.data

/-- Rust `str::contains` with a character pattern. -/
def containsCharS (s : String) (c : Char) : Bool := s.data.contains c

/-- Rust `str::replace` with a one-character pattern. -/
def replaceCharS (s : String) (c : Char) (r : String) : String :=
  ⟨s.data.foldr (fun x acc => if x = c then r.data ++ acc else x :: acc) []⟩

/-- Splitting a character list at every occurrence of a separator character
(Rust `str::split(c)` / `str::splitOn` with a one-character separator:
`n` separators yield `n + 1` pieces, empty pieces included). -/
def splitCharList (sep : Char) : List Char → List (List Char)
  | [] => [[]]
  | c :: cs =>
    let r := splitCharList sep cs
    if c = sep then [] :: r
    else
      match r with
      | [] => [[c]]
      | h :: t => (c :: h) :: t

/-- Rust `str::split` with a one-character separator, as strings. -/
def splitOnCharS (sep : Char) (s : String) : List String :=
  (splitCharList sep s.data).map (fun l => ⟨l⟩)

/-- Splitting a character list at every character satisfying a predicate. -/
def splitPredList (p : Char → Bool) : List Char → List (List Char)
  | [] => [[]]
  | c :: cs =>
    let r := splitPredList p cs
    if p c then [] :: r
    else
      match r with
      | [] => [[c]]
      | h :: t => (c :: h) :: t

/-- Whether a string ends with a newline character. -/
def endsWithNL (s : String) : Bool := s.data.getLast? = some '\n'

/-! ## String helpers shared by the formatters -/

/-- Rust `str::trim_end`: drop every trailing whitespace character. -/
def trimEndStr (s : String) : String :=
  ⟨(s.data.reverse.dropWhile Char.isWhitespace).reverse⟩

/-- Rust `str::trim`: drop leading and trailing whitespace. -/
def trimStr (s : String) : String :=
  ⟨((s.data.dropWhile Char.isWhitespace).reverse.dropWhile Char.isWhitespace).reverse⟩

/-- A run of `n` copies of character `c`. -/
def repChar (c : Char) (n : Nat) : String := ⟨List.replicate n c⟩

/-- Rust `format!("{:<width$}", s)`: left-aligned padding with spaces (no
effect when `s` is at least `w` long). -/
def padLeftAligned (s : String) (w : Nat) : String := s ++ repChar ' ' (w - s.length)

/-- Rust `format!("{:>width$}", s)`: right-aligned padding with spaces. -/
def padRightAligned (s : String) (w : Nat) : String := repChar ' ' (w - s.length) ++ s

/-- The null substitution applied by every formatter in `output.rs`:
`if cell == "NULL" { null_val } else { cell }`. -/
def nullSub (nullVal cell : String) : String := if cell = "NULL" then nullVal else cell

/-! ## Output formatters (src/output.rs)

Each mode that ends in `output.trim_end()` in the source is split into an
explicit buffer builder (the `output` string at the point of the `Ok`) and the
returned value; the returned value applies `trimEndStr` to the buffer. -/

/-- Buffer assembled by `format_list` before its final `trim_end`. -/
def formatListBuffer (r : QueryResult) (st : CliState) : String :=
  (if st.show_headers then String.intercalate st.separator r.columns ++ "\n" else "")
    ++ String.join (r.rows.map fun row =>
        String.intercalate st.separator (row.map (nullSub st.null_value)) ++ "\n")

/-- `format_list`, from `output.rs`: pipe-separated values, then `trim_end`. -/
def formatList (r : QueryResult) (st : CliState) : String :=
  trimEndStr (formatListBuffer r st)

/-- The CSV escaping closure inside `format_csv`. -/
def escape_csv (s : String) : String :=
  if containsCharS s '"' || containsCharS s ',' || containsCharS s '\n' then
    "\"" ++ replaceCharS s '"' "\"\"" ++ "\""
  else s

/-- Buffer assembled by `format_csv` before its final `trim_end`. -/
def formatCsvBuffer (r : QueryResult) (st : CliState) : String :=
  (if st.show_headers then
      String.intercalate "," (r.columns.map escape_csv) ++ "\n"
    else "")
    ++ String.join (r.rows.map fun row =>
        String.intercalate "," (row.map fun cell =>
          escape_csv (nullSub st.null_value cell)) ++ "\n")

/-- `format_csv`, from `output.rs`. -/
def formatCsv (r : QueryResult) (st : CliState) : String :=
  trimEndStr (formatCsvBuffer r st)

/-- The width-accumulation loop of `format_column`: widen `widths[i]` by each
cell of `row` (after null substitution); a cell beyond the current width list
is appended (the source's safeguard branch). -/
def bumpWidthsColumn (nv : String) (widths : List Nat) (row : List String) : List Nat :=
  row.enum.foldl
    (fun ws p =>
      let val := nullSub nv p.2
      if p.1 < ws.length then ws.set p.1 (max (ws.getD p.1 0) val.length)
      else ws ++ [val.length])
    widths

/-- The manual-width override loop of `format_column`. -/
def applyManualWidths (manual : List Nat) (widths : List Nat) : List Nat :=
  manual.enum.foldl
    (fun ws p => if p.1 < ws.length ∧ p.2 > 0 then ws.set p.1 p.2 else ws)
    widths

/-- Column widths chosen by `format_column`. -/
def columnWidths (r : QueryResult) (st : CliState) : List Nat :=
  applyManualWidths st.column_widths
    (r.rows.foldl (bumpWidthsColumn st.null_value) (r.columns.map String.length))

/-- Cell content in `format_column`: hard truncation to the fixed width
(`&header[..w]` in the source; character-level here). -/
def columnContent (s : String) (w : Nat) : String :=
  if s.length > w then ⟨s.data.take w⟩ else s

/-- Buffer assembled by `format_column` (non-empty-rows path) before its final
`trim_end`. -/
def formatColumnBuffer (r : QueryResult) (st : CliState) : String :=
  let widths := columnWidths r st
  (if st.show_headers then
      String.intercalate "  " ((r.columns.zip widths).map fun p =>
        padLeftAligned (columnContent p.1 p.2) p.2) ++ "\n"
      ++ String.intercalate "  " (widths.map (repChar '-')) ++ "\n"
    else "")
    ++ String.join (r.rows.map fun row =>
        String.intercalate "  " ((row.zip widths).map fun p =>
          let val := nullSub st.null_value p.1
          padLeftAligned (columnContent val p.2) p.2) ++ "\n")

/-- `format_column`, from `output.rs`: empty rows short-circuit to the empty
string; otherwise aligned columns, then `trim_end`. -/
def formatColumn (r : QueryResult) (st : CliState) : String :=
  if r.rows = [] then "" else trimEndStr (formatColumnBuffer r st)

/-- Buffer assembled by `format_line` before its final `trim_end`. -/
def formatLineBuffer (r : QueryResult) (st : CliState) : String :=
  let maxColLen := (r.columns.map String.length).foldr max 0
  String.join (r.rows.enum.map fun p =>
    (if p.1 > 0 then "\n" else "")
      ++ String.join ((r.columns.zip p.2).map fun q =>
          padRightAligned q.1 maxColLen ++ " = " ++ nullSub st.null_value q.2 ++ "\n"))

/-- `format_line`, from `output.rs`. -/
def formatLine (r : QueryResult) (st : CliState) : String :=
  trimEndStr (formatLineBuffer r st)

/-- JSON values produced by the JSON formatters: `null` or a string. -/
inductive JsonVal where
  | null
  | str (s : String)
deriving Repr, DecidableEq

/-- Modelled from the spec: the external JSON library's map type keeps keys in
sorted order (a B-tree map); insertion replaces the value of an equal key. -/
def insertSorted : List (String × JsonVal) → String × JsonVal → List (String × JsonVal)
  | [], p => [p]
  | q :: rest, p =>
    if p.1 < q.1 then p :: q :: rest
    else if p.1 = q.1 then p :: rest
    else q :: insertSorted rest p

/-- One row turned into a JSON object, as in `format_json`/`format_jsonl`:
the literal `"NULL"` maps to JSON null when the null-display string is empty,
else to that string. -/
def jsonRowObject (nv : String) (columns row : List String) : List (String × JsonVal) :=
  (columns.zip row).foldl
    (fun obj p =>
      let val :=
        if p.2 = "NULL" then
          if nv = "" then JsonVal.null else JsonVal.str nv
        else JsonVal.str p.2
      insertSorted obj (p.1, val))
    []

/-- Modelled from the spec: the external JSON library's string escaping
(quotes, backslashes, and common control characters; no other code points are
escaped by the inputs this development evaluates). -/
def jsonEscape (s : String) : String :=
  s.data.foldl
    (fun acc c =>
      acc ++
        (if c = '"' then "\\\""
         else if c = '\\' then "\\\\"
         else if c = '\n' then "\\n"
         else if c = '\t' then "\\t"
         else if c = '\r' then "\\r"
         else String.singleton c))
    ""

/-- Render a JSON value (compact). -/
def jsonRenderVal : JsonVal → String
  | JsonVal.null => "null"
  | JsonVal.str s => "\"" ++ jsonEscape s ++ "\""

/-- Modelled from the spec: pretty printing of one object with the external
library's two-space indentation, as it appears nested in a pretty array. -/
def jsonPrettyObject (fields : List (String × JsonVal)) : String :=
  if fields = [] then "{}"
  else
    "\x7b\n"
      ++ String.intercalate ",\n" (fields.map fun p =>
          "    \"" ++ jsonEscape p.1 ++ "\": " ++ jsonRenderVal p.2)
      ++ "\n  \x7d"

/-- Buffer returned by `format_json` (no trailing newline is ever produced by
the pretty printer, and `format_json` performs no trimming). -/
def formatJsonBuffer (r : QueryResult) (st : CliState) : String :=
  let objs := r.rows.map (jsonRowObject st.null_value r.columns)
  if objs = [] then "[]"
  else "[\n" ++ String.intercalate ",\n" (objs.map fun o => "  " ++ jsonPrettyObject o) ++ "\n]"

/-- `format_json`, from `output.rs`: the pretty-printed buffer, returned as
assembled. -/
def formatJson (r : QueryResult) (st : CliState) : String := formatJsonBuffer r st

/-- Render one object compactly, as `serde_json::to_string` does in
`format_jsonl`. -/
def jsonCompactObject (fields : List (String × JsonVal)) : String :=
  "\x7b" ++ String.intercalate "," (fields.map fun p =>
    "\"" ++ jsonEscape p.1 ++ "\":" ++ jsonRenderVal p.2) ++ "\x7d"

/-- Buffer assembled by `format_jsonl` before its final `trim_end`. -/
def formatJsonlBuffer (r : QueryResult) (st : CliState) : String :=
  String.join (r.rows.map fun row =>
    jsonCompactObject (jsonRowObject st.null_value r.columns row) ++ "\n")

/-- `format_jsonl`, from `output.rs`. -/
def formatJsonl (r : QueryResult) (st : CliState) : String :=
  trimEndStr (formatJsonlBuffer r st)

/-- `truncate_string`, from `output.rs`: truncate to `max_width`, appending an
ASCII `"..."` when the width allows it. -/
def truncate_string (s : String) (max_width : Nat) : String :=
  if s.length ≤ max_width then s
  else if max_width ≤ 3 then ⟨s.data.take max_width⟩
  else ⟨s.data.take (max_width - 3)⟩ ++ "..."

/-- Modelled from the spec: terminal colour escapes are outside the core
(§1); the wrapper byte sequences of the colour crate are fixed ANSI codes. -/
def ansiReset : String := "\x1b[0m"

/-- Modelled from the spec: ANSI code used by `colorize_header`. -/
def ansiCyanBold : String := "\x1b[1;36m"

/-- Modelled from the spec: ANSI code used by `colorize_null`. -/
def ansiGrayItalic : String := "\x1b[3;90m"

/-- Modelled from the spec: ANSI code used by `colorize_alt_row`. -/
def ansiWhiteDim : String := "\x1b[2;37m"

/-- Modelled from the spec: ANSI code used by `colorize_footer`. -/
def ansiGreenDim : String := "\x1b[2;32m"

/-- `colorize_header`, from `output.rs`: pad first, then colorize. -/
def colorize_header (text : String) (w : Nat) : String :=
  ansiCyanBold ++ padLeftAligned text w ++ ansiReset

/-- `colorize_null`, from `output.rs`. -/
def colorize_null (text : String) (w : Nat) : String :=
  ansiGrayItalic ++ padLeftAligned text w ++ ansiReset

/-- `colorize_alt_row`, from `output.rs`. -/
def colorize_alt_row (text : String) (w : Nat) : String :=
  ansiWhiteDim ++ padLeftAligned text w ++ ansiReset

/-- `colorize_footer`, from `output.rs`. -/
def colorize_footer (text : String) : String := ansiGreenDim ++ text ++ ansiReset

/-- The width-accumulation loop of `format_table` (`widths[i] =
widths[i].max(val.len())`; the source indexes directly and would panic on a
row longer than the header list - the embedding's `List.set` is a no-op
there). -/
def bumpWidthsTable (nv : String) (widths : List Nat) (row : List String) : List Nat :=
  row.enum.foldl
    (fun ws p =>
      let val := nullSub nv p.2
      ws.set p.1 (max (ws.getD p.1 0) val.length))
    widths

/-- Column widths chosen by `format_table`: accumulated maxima capped at 50. -/
def tableWidths (r : QueryResult) (st : CliState) : List Nat :=
  ((r.rows.foldl (bumpWidthsTable st.null_value) (r.columns.map String.length)).map
    (fun w => min w 50))

/-- Buffer assembled by `format_table` (non-empty-rows path); `format_table`
returns it without trimming. -/
def formatTableBuffer (r : QueryResult) (st : CliState) : String :=
  let widths := tableWidths r st
  let border (l m rr : String) : String :=
    l ++ String.intercalate m (widths.map fun w => repChar '─' (w + 2)) ++ rr
  let headerCells :=
    String.intercalate "│" ((r.columns.zip widths).map fun p =>
      let truncated := truncate_string p.1 p.2
      if st.color_enabled then " " ++ colorize_header truncated p.2 ++ " "
      else " " ++ padLeftAligned truncated p.2 ++ " ")
  let rowLine (rowIdx : Nat) (row : List String) : String :=
    "│" ++
      String.intercalate "│" ((row.zip widths).map fun p =>
        let val := nullSub st.null_value p.1
        let truncated := truncate_string val p.2
        if st.color_enabled ∧ p.1 = "NULL" then " " ++ colorize_null truncated p.2 ++ " "
        else if st.color_enabled ∧ rowIdx % 2 = 1 then " " ++ colorize_alt_row truncated p.2 ++ " "
        else " " ++ padLeftAligned truncated p.2 ++ " ")
      ++ "│\n"
  let footerText :=
    "(" ++ toString r.rows.length ++ " row" ++ (if r.rows.length = 1 then "" else "s") ++ ")"
  border "┌" "┬" "┐\n"
    ++ (if st.show_headers then
          "│" ++ headerCells ++ "│\n" ++ border "├" "┼" "┤\n"
        else "")
    ++ String.join (r.rows.enum.map fun p => rowLine p.1 p.2)
    ++ border "└" "┴" "┘"
    ++ "\n" ++ (if st.color_enabled then colorize_footer footerText else footerText)

/-- `format_table`, from `output.rs`: empty rows short-circuit to the empty
string; otherwise the boxed buffer is returned with no trimming. -/
def formatTable (r : QueryResult) (st : CliState) : String :=
  if r.rows = [] then "" else formatTableBuffer r st

/-- Buffer assembled by `format_markdown` (non-empty-rows path) before its
final `trim_end`. -/
def formatMarkdownBuffer (r : QueryResult) (st : CliState) : String :=
  "| " ++ String.intercalate " | " r.columns ++ " |\n"
    ++ "|" ++ String.join (r.columns.map fun _ => " --- |") ++ "\n"
    ++ String.join (r.rows.map fun row =>
        "| " ++ String.intercalate " | " (row.map fun cell =>
          replaceCharS (nullSub st.null_value cell) '|' "\\|") ++ " |\n")

/-- `format_markdown`, from `output.rs`: empty rows short-circuit to the empty
string. -/
def formatMarkdown (r : QueryResult) (st : CliState) : String :=
  if r.rows = [] then "" else trimEndStr (formatMarkdownBuffer r st)

/-- `format_result`, from `output.rs`: dispatch on the output mode. -/
def format_result (r : QueryResult) (st : CliState) : String :=
  match st.output_mode with
  | OutputMode.list => formatList r st
  | OutputMode.csv => formatCsv r st
  | OutputMode.column => formatColumn r st
  | OutputMode.line => formatLine r st
  | OutputMode.json => formatJson r st
  | OutputMode.jsonl => formatJsonl r st
  | OutputMode.table => formatTable r st
  | OutputMode.markdown => formatMarkdown r st

/-! ## Output redirection (src/cli_state.rs, `set_output_file`) -/

/-- `OutputMode::as_str`, from `cli_state.rs`. -/
def OutputMode.as_str : OutputMode → String
  | OutputMode.list => "list"
  | OutputMode.csv => "csv"
  | OutputMode.column => "column"
  | OutputMode.line => "line"
  | OutputMode.json => "json"
  | OutputMode.jsonl => "jsonl"
  | OutputMode.table => "table"
  | OutputMode.markdown => "markdown"

/-- `OutputMode::from_str`, from `cli_state.rs`. -/
def OutputMode.from_str (s : String) : Option OutputMode :=
  let t := toLowerS s
  if t = "list" then some OutputMode.list
  else if t = "csv" then some OutputMode.csv
  else if t = "column" ∨ t = "columns" then some OutputMode.column
  else if t = "line" then some OutputMode.line
  else if t = "json" then some OutputMode.json
  else if t = "jsonl" then some OutputMode.jsonl
  else if t = "table" ∨ t = "box" then some OutputMode.table
  else if t = "markdown" ∨ t = "md" then some OutputMode.markdown
  else none

/-- Rust `Path::extension` on the redirection argument: the portion of the
last `/`-component after its final `.`; none when there is no embedded `.` or
when the file name is a bare dot-file. -/
def pathExtension (p : String) : Option String :=
  let name := (splitOnCharS '/' p).getLastD ""
  let parts := splitOnCharS '.' name
  if parts.length ≤ 1 then none
  else if startsWithS name "." ∧ parts.length = 2 then none
  else some (parts.getLastD "")

/-- The extension-to-mode table inside `set_output_file` (the extension is
lowercased by the caller before this match). -/
def inferredModeOfExt : Option String → Option OutputMode
  | some e =>
    if e = "csv" then some OutputMode.csv
    else if e = "json" then some OutputMode.json
    else if e = "jsonl" ∨ e = "ndjson" then some OutputMode.jsonl
    else if e = "md" ∨ e = "markdown" then some OutputMode.markdown
    else none
  | none => none

/-- The mode `set_output_file` infers for a path argument. -/
def inferredModeOfPath (p : String) : Option OutputMode :=
  inferredModeOfExt ((pathExtension p).map toLowerS)

/-- `CliState::set_output_file`, from `cli_state.rs`: redirect to a file
(auto-selecting a mode from the extension and saving the prior mode in the
empty slot) or, with no argument, revert to stdout restoring any saved mode.
The file handle itself is modelled by presence, and `File::create` is assumed
to succeed (IO errors are outside the claims). -/
def set_output_file (st : CliState) (path : Option String) : CliState × Option String :=
  match path with
  | some p =>
    let st1 := { st with output_file := true }
    match inferredModeOfPath p with
    | some mode =>
      if mode ≠ st1.output_mode then
        let st2 :=
          if st1.saved_output_mode = none then
            { st1 with saved_output_mode := some st1.output_mode }
          else st1
        ({ st2 with output_mode := mode },
          some ("Output mode temporarily set to '" ++ mode.as_str
            ++ "' based on file extension."))
      else (st1, none)
    | none => (st1, none)
  | none =>
    let st1 := { st with output_file := false }
    match st1.saved_output_mode with
    | some orig => ({ st1 with output_mode := orig, saved_output_mode := none }, none)
    | none => (st1, none)

/-- A sequence of `.output <file>` redirections applied in order. -/
def applyRedirects (st : CliState) (paths : List String) : CliState :=
  paths.foldl (fun s p => (set_output_file s (some p)).1) st

/-! ## Dot commands and `.read` (src/dot_commands.rs) -/

/-- The dispatcher's tristate result, from `dot_commands.rs`. -/
inductive CommandResult where
  | cont
  | quit
  | changeDb (path : String)
deriving Repr, DecidableEq

/-- The dot-command tags, from `dot_commands.rs`. -/
inductive DotCommand where
  | quit | exit | help | tables | schema | mode | headers | show | dump
  | output | read | databases | separator | nullValue | imp | timer | echo
  | width | bail | openCmd
deriving Repr, DecidableEq

/-- `DotCommand::from_str`, from `dot_commands.rs` (exact match, no case
folding). -/
def DotCommand.from_str (s : String) : Option DotCommand :=
  if s = ".quit" then some DotCommand.quit
  else if s = ".exit" then some DotCommand.exit
  else if s = ".help" then some DotCommand.help
  else if s = ".tables" then some DotCommand.tables
  else if s = ".schema" then some DotCommand.schema
  else if s = ".mode" then some DotCommand.mode
  else if s = ".headers" then some DotCommand.headers
  else if s = ".show" then some DotCommand.show
  else if s = ".dump" then some DotCommand.dump
  else if s = ".output" then some DotCommand.output
  else if s = ".read" then some DotCommand.read
  else if s = ".databases" then some DotCommand.databases
  else if s = ".separator" then some DotCommand.separator
  else if s = ".nullvalue" then some DotCommand.nullValue
  else if s = ".import" then some DotCommand.imp
  else if s = ".timer" then some DotCommand.timer
  else if s = ".echo" then some DotCommand.echo
  else if s = ".width" then some DotCommand.width
  else if s = ".bail" then some DotCommand.bail
  else if s = ".open" then some DotCommand.openCmd
  else none

/-- `parse_bool_arg`, from `dot_commands.rs`. -/
def parse_bool_arg (value : String) : Option Bool :=
  let t := toLowerS value
  if t = "on" ∨ t = "1" ∨ t = "yes" ∨ t = "true" then some true
  else if t = "off" ∨ t = "0" ∨ t = "no" ∨ t = "false" then some false
  else none

/-- Whether a `.width` argument parses as a `usize`. -/
def isNatArg (s : String) : Bool := s ≠ "" && s.data.all Char.isDigit

/-- Rust `split_whitespace`: whitespace-separated non-empty words. -/
def splitWhitespace (s : String) : List String :=
  ((splitPredList Char.isWhitespace s.data).map (fun l => (⟨l⟩ : String))).filter (· ≠ "")

/-- The control-flow skeleton of `dot_commands::execute`: which
`CommandResult` (or error) a command produces.  State mutations and writes
performed by the individual commands are not tracked - no command other than
`.quit`/`.exit` and `.open` ever yields anything but `Continue`, which is the
projection the `.read` claims depend on.  Bad-argument errors are kept.  A
nested `.read` would recurse through the file system; it is modelled as a
successful no-op (outside every claim's scope). -/
def dotCommandResult (command : String) : Except String CommandResult :=
  match splitWhitespace command with
  | [] => Except.error "Empty command"
  | c :: args =>
    match DotCommand.from_str c with
    | none => Except.error ("Unknown command: " ++ c ++ ". Enter \".help\" for help")
    | some cmd =>
      match cmd with
      | DotCommand.quit => Except.ok CommandResult.quit
      | DotCommand.exit => Except.ok CommandResult.quit
      | DotCommand.openCmd =>
        match args.head? with
        | some p => Except.ok (CommandResult.changeDb p)
        | none => Except.error "Usage: .open FILENAME"
      | DotCommand.read =>
        match args.head? with
        | some _ => Except.ok CommandResult.cont
        | none => Except.error "Usage: .read FILE"
      | DotCommand.imp =>
        if args.length < 2 then Except.error "Usage: .import FILE TABLE"
        else Except.ok CommandResult.cont
      | DotCommand.mode =>
        match args.head? with
        | some m =>
          match OutputMode.from_str m with
          | some _ => Except.ok CommandResult.cont
          | none => Except.error "Error: mode should be one of: ..."
        | none => Except.ok CommandResult.cont
      | DotCommand.headers =>
        match args.head? with
        | some v =>
          if v = "on" ∨ v = "1" ∨ v = "yes" ∨ v = "true"
              ∨ v = "off" ∨ v = "0" ∨ v = "no" ∨ v = "false" then
            Except.ok CommandResult.cont
          else Except.error ("Usage: .headers on|off (got: " ++ v ++ ")")
        | none => Except.ok CommandResult.cont
      | DotCommand.timer =>
        match args.head? with
        | some v =>
          if v = "on" ∨ v = "1" ∨ v = "yes" ∨ v = "true"
              ∨ v = "off" ∨ v = "0" ∨ v = "no" ∨ v = "false" then
            Except.ok CommandResult.cont
          else Except.error ("Usage: .timer on|off (got: " ++ v ++ ")")
        | none => Except.ok CommandResult.cont
      | DotCommand.echo =>
        match args.head? with
        | some v =>
          if v = "on" ∨ v = "1" ∨ v = "yes" ∨ v = "true"
              ∨ v = "off" ∨ v = "0" ∨ v = "no" ∨ v = "false" then
            Except.ok CommandResult.cont
          else Except.error ("Usage: .echo on|off (got: " ++ v ++ ")")
        | none => Except.ok CommandResult.cont
      | DotCommand.bail =>
        match args.head? with
        | some v =>
          match parse_bool_arg v with
          | some _ => Except.ok CommandResult.cont
          | none => Except.error ("Usage: .bail on|off (got: " ++ v ++ ")")
        | none => Except.ok CommandResult.cont
      | DotCommand.width =>
        if args = [] then Except.error "Usage: .width NUM1 NUM2 ..."
        else if args.all isNatArg then Except.ok CommandResult.cont
        else Except.error "Invalid width"
      | _ => Except.ok CommandResult.cont

/-- Outcome of running a `.read` script: normal completion, a surfaced error,
or process termination (`std::process::exit(0)` on a scripted `.quit`). -/
inductive ReadOutcome where
  | ok
  | err (msg : String)
  | exited
deriving Repr, DecidableEq

/-- The statement loop of `cmd_read`, from `dot_commands.rs`, over the pieces
of the file split on `;`.  `sqlOk` abstracts `sql_executor::execute` (true =
success); the second component is the trace of SQL strings handed to the
executor, in order.  An executor error propagates through `?` immediately:
no later piece is processed. -/
def processReadPieces (sqlOk : String → Bool) : List String → ReadOutcome × List String
  | [] => (ReadOutcome.ok, [])
  | piece :: rest =>
    let trimmed := trimStr piece
    if trimmed ≠ "" ∧ ¬ startsWithS trimmed "." then
      let sql := trimmed ++ ";"
      if sqlOk sql then
        let r := processReadPieces sqlOk rest
        (r.1, sql :: r.2)
      else (ReadOutcome.err ("execute failed: " ++ sql), [sql])
    else if startsWithS trimmed "." then
      match dotCommandResult trimmed with
      | Except.error e => (ReadOutcome.err e, [])
      | Except.ok (CommandResult.changeDb _) =>
        (ReadOutcome.err "Cannot change database inside .read", [])
      | Except.ok CommandResult.quit => (ReadOutcome.exited, [])
      | Except.ok CommandResult.cont => processReadPieces sqlOk rest
    else processReadPieces sqlOk rest

/-- `cmd_read`, from `dot_commands.rs`: split the file content on `;` and run
the pieces. -/
def cmd_read (sqlOk : String → Bool) (content : String) : ReadOutcome × List String :=
  processReadPieces sqlOk (splitOnCharS ';' content)

/-- The REPL loop's reaction to a surfaced error, from `repl.rs`: the session
aborts exactly when `bail` is set (otherwise the error is printed and the
buffer cleared). -/
def replAbortsOnError (st : CliState) : Bool := st.bail

/-! ## Partial tokenizer

The source delegates lexing to an external SQL-parser crate; only its token
stream is consumed (`lsp.rs`). -/

/-- Modelled from the spec: §4.1 Partial Tokenizer - token kinds the consumer
must distinguish are words, parentheses, comma, whitespace, string and
numeric literals, and other punctuation (the source obtains these from the
external sqlparser crate, which is not part of this repository). -/
inductive Token where
  | word (s : String)
  | num (s : String)
  | squoted (s : String)
  | lparen
  | rparen
  | comma
  | period
  | wsp
  | other (c : Char)
deriving Repr, DecidableEq

/-- Whether a token is whitespace (the scans in `lsp.rs` filter these). -/
def Token.isWsp : Token → Bool
  | Token.wsp => true
  | _ => false

/-- First character of an identifier word. -/
def isIdentStart (c : Char) : Bool := c.isAlpha || c = '_'

/-- Continuation character of an identifier word. -/
def isIdentCont (c : Char) : Bool := c.isAlphanum || c = '_'

/-- Modelled from the spec: §4.1 - best-effort lexing of arbitrary text in
source order; maximal identifier and digit runs become words and numbers,
whitespace runs collapse to one whitespace token, single quotes delimit
string literals, and the punctuation the classifier inspects is tagged
individually.  The recursion is driven by a character-count fuel so that
applications reduce definitionally; every step consumes at least one
character, so `tokenize` below always supplies enough fuel. -/
def tokenizeGo : Nat → List Char → List Token
  | 0, _ => []
  | _, [] => []
  | fuel + 1, c :: cs =>
    if isIdentStart c then
      Token.word ⟨c :: cs.takeWhile isIdentCont⟩
        :: tokenizeGo fuel (cs.dropWhile isIdentCont)
    else if c.isDigit then
      Token.num ⟨c :: cs.takeWhile Char.isDigit⟩
        :: tokenizeGo fuel (cs.dropWhile Char.isDigit)
    else if c.isWhitespace then
      Token.wsp :: tokenizeGo fuel (cs.dropWhile Char.isWhitespace)
    else if c = '\'' then
      Token.squoted ⟨cs.takeWhile (· ≠ '\'')⟩
        :: tokenizeGo fuel ((cs.dropWhile (· ≠ '\'')).drop 1)
    else if c = '(' then Token.lparen :: tokenizeGo fuel cs
    else if c = ')' then Token.rparen :: tokenizeGo fuel cs
    else if c = ',' then Token.comma :: tokenizeGo fuel cs
    else if c = '.' then Token.period :: tokenizeGo fuel cs
    else Token.other c :: tokenizeGo fuel cs

/-- Tokenize a character list (fuel instantiated to the text length). -/
def tokenize (l : List Char) : List Token := tokenizeGo l.length l

/-! ## Language service scans (src/lsp.rs) -/

/-- The first non-whitespace token at index `j` or later, with its index
(the forward whitespace-skipping loops of `lsp.rs`). -/
def firstNonWsFrom (tokens : List Token) (j : Nat) : Option (Nat × Token) :=
  match (tokens.drop j).findIdx? (fun t => !t.isWsp) with
  | some i => ((tokens.drop j).get? i).map (fun t => (j + i, t))
  | none => none

/-- The last non-whitespace token strictly before index `idx` (the
`get_prev_token` helper of `detect_context`). -/
def prevNonWs (tokens : List Token) (idx : Nat) : Option Token :=
  (tokens.take idx).reverse.find? (fun t => !t.isWsp)

/-- The shared backward `CREATE ... INDEX` scan: walk the given (already
reversed) tokens, remembering whether `INDEX` was seen, succeeding on a
`CREATE` after an `INDEX`, failing on any stop keyword. -/
def createIdxScan (stops : List String) : List Token → Bool → Bool
  | [], _ => false
  | t :: rest, found =>
    match t with
    | Token.word w =>
      let kw := toUpperS w
      if kw = "INDEX" then createIdxScan stops rest true
      else if kw = "CREATE" ∧ found then true
      else if stops.contains kw then false
      else createIdxScan stops rest found
    | _ => createIdxScan stops rest found

/-- The `is_create_index_context` closure of `detect_context`. -/
def is_create_index_context (tokens : List Token) : Bool :=
  createIdxScan ["JOIN", "FROM", "SELECT"] tokens.reverse false

/-- The `is_create_index_at` closure of `extract_tables_aliases` (same scan,
restricted to the tokens before `pos` and with a wider stop set). -/
def is_create_index_at (tokens : List Token) (pos : Nat) : Bool :=
  createIdxScan ["FROM", "JOIN", "SELECT", "WHERE"] (tokens.take pos).reverse false

/-- The backward `INSERT INTO t ( ...` scan of `detect_context`
(`is_insert_into_column_list_context`), over reversed tokens. -/
def insertIntoScan : List Token → Nat → Bool → Bool → Bool
  | [], _, _, _ => false
  | t :: rest, depth, foundL, foundInto =>
    match t with
    | Token.rparen => insertIntoScan rest (depth + 1) foundL foundInto
    | Token.lparen =>
      if depth > 0 then insertIntoScan rest (depth - 1) foundL foundInto
      else insertIntoScan rest depth true foundInto
    | Token.word w =>
      if foundL then
        let kw := toUpperS w
        if kw = "INTO" then insertIntoScan rest depth foundL true
        else if kw = "INSERT" ∧ foundInto then true
        else if kw = "VALUES" ∨ kw = "SELECT" ∨ kw = "FROM" then false
        else insertIntoScan rest depth foundL foundInto
      else insertIntoScan rest depth foundL foundInto
    | _ => insertIntoScan rest depth foundL foundInto

/-- `is_insert_into_column_list_context`, from `detect_context`. -/
def is_insert_into_column_list_context (tokens : List Token) : Bool :=
  insertIntoScan tokens.reverse 0 false false

/-- The backward `DROP INDEX [IF [EXISTS]]` scan of `detect_context`
(`is_drop_index_context`), over reversed tokens. -/
def dropIdxScan : List Token → Bool → Bool
  | [], _ => false
  | t :: rest, found =>
    match t with
    | Token.word w =>
      let kw := toUpperS w
      if kw = "INDEX" then dropIdxScan rest true
      else if kw = "DROP" ∧ found then true
      else if kw = "IF" ∨ kw = "EXISTS" then dropIdxScan rest found
      else if kw = "CREATE" ∨ kw = "FROM" ∨ kw = "SELECT" then false
      else dropIdxScan rest found
    | _ => dropIdxScan rest found

/-- `is_drop_index_context`, from `detect_context`. -/
def is_drop_index_context (tokens : List Token) : Bool :=
  dropIdxScan tokens.reverse false

/-- The inner loop of `is_inside_create_table`: from index `j`, skip
whitespace (bounded by `current`) and report the index of a `TABLE` word, if
that is the first non-whitespace token. -/
def tableIdxAfterCreate (tokens : List Token) (current j : Nat) : Option Nat :=
  match firstNonWsFrom (tokens.take current) j with
  | some (k, Token.word w2) => if toUpperS w2 = "TABLE" then some k else none
  | _ => none

/-- The `CREATE ... TABLE` search of `is_inside_create_table`: the index of
the `TABLE` token of the last `CREATE`-`TABLE` pair found before
`current`. -/
def lastCreateTableIdx (tokens : List Token) (current : Nat) : Option Nat :=
  (List.range current).foldl
    (fun acc i =>
      match tokens.get? i with
      | some (Token.word w) =>
        if toUpperS w = "CREATE" then
          match tableIdxAfterCreate tokens current (i + 1) with
          | some j => some j
          | none => acc
        else acc
      | _ => acc)
    none

/-- The parenthesis loop of `is_inside_create_table`: whether any `(` was
seen and the final depth, where `)` only lowers a positive depth. -/
def parenDepthScan (ts : List Token) : Bool × Nat :=
  ts.foldl
    (fun (p : Bool × Nat) t =>
      match t with
      | Token.lparen => (true, p.2 + 1)
      | Token.rparen => (p.1, if p.2 > 0 then p.2 - 1 else p.2)
      | _ => p)
    (false, 0)

/-- `is_inside_create_table`, from `lsp.rs`: the probe run by the reverse
scan on a non-keyword word at `current_idx`. -/
def is_inside_create_table (tokens : List Token) (current_idx : Nat) : Bool :=
  match lastCreateTableIdx tokens current_idx with
  | some start =>
    let window := (tokens.take (min (current_idx + 1) tokens.length)).drop (start + 1)
    let p := parenDepthScan window
    p.1 ∧ p.2 = 1
  | none => false

/-- SQL contexts for completion, from `lsp.rs`. -/
inductive SqlContext where
  | tableCtx
  | columnCtx
  | insertCtx
  | typeCtx
  | indexCtx
  | dflt
deriving Repr, DecidableEq

/-- The backward clause search run when the last token is a comma. -/
def commaClauseScan : List Token → Option SqlContext
  | [] => none
  | t :: rest =>
    match t with
    | Token.word w =>
      let kw := toUpperS w
      if kw = "SELECT" ∨ kw = "WHERE" ∨ kw = "GROUP" ∨ kw = "ORDER" then
        some SqlContext.columnCtx
      else if kw = "FROM" ∨ kw = "UPDATE" then some SqlContext.tableCtx
      else if kw = "VALUES" then some SqlContext.dflt
      else commaClauseScan rest
    | _ => commaClauseScan rest

/-- The bounded reverse scan of `detect_context` over the enumerated tokens
in reverse order: at most ten non-whitespace tokens are examined, and
parenthesis depth is tracked across them. -/
def revScanGo (tokens : List Token) : List (Nat × Token) → Nat → Nat → Option SqlContext
  | [], _, _ => none
  | (idx, t) :: rest, count, depth =>
    match t with
    | Token.wsp => revScanGo tokens rest count depth
    | _ =>
      if count + 1 > 10 then none
      else
        let c := count + 1
        match t with
        | Token.rparen => revScanGo tokens rest c (depth + 1)
        | Token.lparen =>
          if depth > 0 then revScanGo tokens rest c (depth - 1)
          else if is_create_index_context tokens then some SqlContext.columnCtx
          else if is_insert_into_column_list_context tokens then some SqlContext.columnCtx
          else revScanGo tokens rest c depth
        | Token.word w =>
          let kw := toUpperS w
          if kw = "FROM" ∨ kw = "JOIN" ∨ kw = "UPDATE" ∨ kw = "INTO" ∨ kw = "TABLE" then
            some SqlContext.tableCtx
          else if kw = "ON" then
            if is_create_index_context tokens then
              if depth > 0 then some SqlContext.columnCtx else some SqlContext.tableCtx
            else some SqlContext.columnCtx
          else if kw = "SELECT" ∨ kw = "WHERE" ∨ kw = "SET" ∨ kw = "BY" ∨ kw = "HAVING" then
            some SqlContext.columnCtx
          else if kw = "AND" ∨ kw = "OR" then some SqlContext.columnCtx
          else if kw = "CREATE" then some SqlContext.dflt
          else if kw = "LIMIT" ∨ kw = "OFFSET" ∨ kw = "UNION" ∨ kw = "EXCEPT"
              ∨ kw = "INTERSECT" then
            some SqlContext.dflt
          else if is_inside_create_table tokens idx then some SqlContext.typeCtx
          else revScanGo tokens rest c depth
        | _ => revScanGo tokens rest c depth

/-- The single-token dispatch of `detect_context` on the last
non-whitespace token (`none` means fall through to the full reverse scan). -/
def singleTokenDispatch (tokens : List Token) : Option SqlContext :=
  match prevNonWs tokens tokens.length with
  | some (Token.word w) =>
    let kw := toUpperS w
    if kw = "FROM" ∨ kw = "JOIN" ∨ kw = "UPDATE" ∨ kw = "INTO" ∨ kw = "TABLE" then
      some SqlContext.tableCtx
    else if kw = "ON" then
      some (if is_create_index_context tokens then SqlContext.tableCtx
        else SqlContext.columnCtx)
    else if kw = "INDEX" then
      if is_drop_index_context tokens then some SqlContext.indexCtx else none
    else if kw = "EXISTS" then
      if is_drop_index_context tokens then some SqlContext.indexCtx else none
    else if kw = "SELECT" ∨ kw = "WHERE" ∨ kw = "SET" ∨ kw = "BY" ∨ kw = "HAVING" then
      some SqlContext.columnCtx
    else if kw = "INSERT" then some SqlContext.insertCtx
    else if kw = "AND" ∨ kw = "OR" then some SqlContext.columnCtx
    else if is_drop_index_context tokens then some SqlContext.indexCtx
    else none
  | some Token.comma =>
    if is_create_index_context tokens then some SqlContext.columnCtx
    else if is_insert_into_column_list_context tokens then some SqlContext.columnCtx
    else commaClauseScan ((tokens.take (tokens.length - 1)).reverse)
  | some Token.lparen =>
    if is_create_index_context tokens then some SqlContext.columnCtx
    else if is_insert_into_column_list_context tokens then some SqlContext.columnCtx
    else none
  | _ => none

/-- `detect_context` over an already tokenized prefix, from `lsp.rs`. -/
def detectContextTokens (tokens : List Token) : SqlContext :=
  if tokens = [] then SqlContext.dflt
  else
    match singleTokenDispatch tokens with
    | some ctx => ctx
    | none =>
      match revScanGo tokens tokens.enum.reverse 0 0 with
      | some ctx => ctx
      | none => SqlContext.dflt

/-- `detect_context`, from `lsp.rs`: tokenize the text before the cursor and
classify. -/
def detect_context (text : List Char) (offset : Nat) : SqlContext :=
  detectContextTokens (tokenize (text.take offset))

/-! ## Word extraction and positions (src/lsp.rs) -/

/-- The word-character test of `get_word_at_offset`
(`ch.is_alphanumeric() || ch == '_'`). -/
def isWordChar (c : Char) : Bool := c.isAlphanum || c = '_'

/-- The backward loop of `get_word_at_offset`: the start of the word-char run
ending at the given index. -/
def wordStart (t : List Char) : Nat → Nat
  | 0 => 0
  | n + 1 =>
    match t.get? n with
    | some c => if isWordChar c then wordStart t n else n + 1
    | none => n + 1

/-- The forward loop of `get_word_at_offset`: the end of the word-char run
starting at `off`. -/
def wordEndIdx (t : List Char) (off : Nat) : Nat :=
  off + ((t.drop off).takeWhile isWordChar).length

/-- `get_word_at_offset`, from `lsp.rs`: the start index and the maximal
word-character run around the (clamped) offset. -/
def getWordAtOffset (t : List Char) (offset : Nat) : Nat × String :=
  let off := min offset t.length
  let s := wordStart t off
  let e := wordEndIdx t off
  (s, ⟨(t.take e).drop s⟩)

/-- LSP position (0-indexed line and character), from `lsp.rs`. -/
structure Position where
  line : Nat
  character : Nat
deriving Repr, DecidableEq

/-- The line walk of `position_to_offset`: accumulated offset and whether the
requested line was reached. -/
def posOffGo (pl pc : Nat) : List String → Nat → Nat → Nat × Bool
  | [], acc, _ => (acc, false)
  | l :: rest, acc, ln =>
    if ln = pl then (acc + min pc l.length, true)
    else posOffGo pl pc rest (acc + l.length + 1) (ln + 1)

/-- `position_to_offset`, from `lsp.rs`: walk the lines; past the last line,
clamp the accumulated offset to the text length. -/
def positionToOffset (text : String) (pos : Position) : Nat :=
  let r := posOffGo pos.line pos.character (splitOnCharS '\n' text) 0 0
  if r.2 then r.1 else min r.1 text.length

/-! ## Alias extraction (src/lsp.rs, `extract_tables_aliases`) -/

/-- Alias-map insertion: the source uses a hash map, where inserting an
existing key replaces its value.  The embedding is an association list with
the same lookup semantics (the source's iteration order is arbitrary; every
property proved here is order-independent). -/
def insertA : List (String × String) → String → String → List (String × String)
  | [], k, v => [(k, v)]
  | q :: rest, k, v => if q.1 = k then (k, v) :: rest else q :: insertA rest k v

/-- Alias-map lookup (`HashMap::get`). -/
def lookupA (m : List (String × String)) (k : String) : Option String :=
  (m.find? (fun q => q.1 = k)).map (·.2)

/-- The implicit-alias denylist of `extract_tables_aliases`. -/
def aliasDenylist : List String :=
  ["WHERE", "JOIN", "INNER", "LEFT", "RIGHT", "FULL", "CROSS", "ON", "ORDER",
   "GROUP", "LIMIT", "HAVING", "SET", "ASC", "DESC", "AND", "OR"]

/-- Whether the first non-whitespace token before `i` is the word `INSERT`
(the backward check of the `INTO` branch). -/
def prevNonWsIsInsert (tokens : List Token) (i : Nat) : Bool :=
  match (tokens.take i).reverse.find? (fun t => !t.isWsp) with
  | some (Token.word w) => toUpperS w = "INSERT"
  | _ => false

/-- The `FROM`/`JOIN` branch of `extract_tables_aliases`: the table binding
plus an explicit (`AS x`) or implicit (next non-denylisted word) alias
binding. -/
def extractFromJoinInserts (tokens : List Token) (i : Nat) : List (String × String) :=
  match firstNonWsFrom tokens (i + 1) with
  | some (j, Token.word tw) =>
    let aliasIns :=
      match firstNonWsFrom tokens (j + 1) with
      | some (k, Token.word w2) =>
        if toUpperS w2 = "AS" then
          match firstNonWsFrom tokens (k + 1) with
          | some (_, Token.word w3) => [(w3, tw)]
          | _ => []
        else if ¬ aliasDenylist.contains (toUpperS w2) then [(w2, tw)]
        else []
      | _ => []
    (tw, tw) :: aliasIns
  | _ => []

/-- The insertion sequence performed by the main loop of
`extract_tables_aliases`, in source order (the loop only ever inserts; it
never reads the map, so the sequence is independent of the accumulated map).
The fuel counts the remaining indices; `extractInserts` supplies the token
count, which is exact. -/
def extractInsertsGo (tokens : List Token) : Nat → Nat → List (String × String)
  | 0, _ => []
  | fuel + 1, i =>
    let ins :=
      match tokens.get? i with
      | some (Token.word w) =>
        let kw := toUpperS w
        if kw = "ON" ∧ is_create_index_at tokens i then
          match firstNonWsFrom tokens (i + 1) with
          | some (_, Token.word tw) => [(tw, tw)]
          | _ => []
        else if kw = "INTO" ∧ prevNonWsIsInsert tokens i then
          match firstNonWsFrom tokens (i + 1) with
          | some (_, Token.word tw) => [(tw, tw)]
          | _ => []
        else if kw = "FROM" ∨ kw = "JOIN" then extractFromJoinInserts tokens i
        else []
      | _ => []
    ins ++ extractInsertsGo tokens fuel (i + 1)

/-- The insertions of `extract_tables_aliases` for a token list. -/
def extractInserts (tokens : List Token) : List (String × String) :=
  extractInsertsGo tokens tokens.length 0

/-- `extract_tables_aliases`, from `lsp.rs`: fold the insertion sequence into
the alias map. -/
def extract_tables_aliases (text : List Char) : List (String × String) :=
  (extractInserts (tokenize text)).foldl (fun m p => insertA m p.1 p.2) []

/-! ## Completion engine (src/lsp.rs, `completion`) -/

/-- Cached column information, from `lsp.rs`. -/
structure ColumnInfo where
  table : String
  name : String
  type_ : String
  is_pk : Bool
  is_nullable : Bool
  default_value : Option String
deriving Repr, DecidableEq

/-- The language-service schema cache, from `lsp.rs`. -/
structure SqlLspService where
  cached_tables : List String
  cached_columns : List ColumnInfo
  cached_create_sqls : List (String × String)
  cached_indexes : List String
deriving Repr, DecidableEq

/-- Completion item kinds, from `lsp.rs`. -/
inductive CompletionItemKind where
  | tableKind | columnKind | functionKind | typeKind | keywordKind
deriving Repr, DecidableEq

/-- A completion item, from `lsp.rs`. -/
structure CompletionItem where
  label : String
  kind : CompletionItemKind
  detail : Option String
  documentation : Option String
  insert_text : Option String
deriving Repr, DecidableEq

/-- `CompletionItem::type_`. -/
def CompletionItem.typeItem (label : String) : CompletionItem :=
  ⟨label, CompletionItemKind.typeKind, some "type", none, none⟩

/-- `CompletionItem::keyword`. -/
def CompletionItem.keyword (label : String) : CompletionItem :=
  ⟨label, CompletionItemKind.keywordKind, none, none, none⟩

/-- `CompletionItem::table`. -/
def CompletionItem.tableItem (label : String) : CompletionItem :=
  ⟨label, CompletionItemKind.tableKind, some "table", none, none⟩

/-- `CompletionItem::column`. -/
def CompletionItem.columnItem (label table type_ : String) : CompletionItem :=
  ⟨label, CompletionItemKind.columnKind, some (type_ ++ " (" ++ table ++ ")"), none, none⟩

/-- `CompletionItem::function`. -/
def CompletionItem.functionItem (label : String) (sig : Option String) : CompletionItem :=
  ⟨label, CompletionItemKind.functionKind, sig, none, none⟩

/-- `get_sql_types`, from `lsp.rs`. -/
def getSqlTypes : List String :=
  ["TEXT", "INTEGER", "REAL", "BLOB", "NUMERIC", "VARCHAR", "CHAR", "BOOLEAN",
   "DATETIME", "DATE", "TIME", "FLOAT", "DOUBLE", "INT", "BIGINT", "SMALLINT",
   "TINYINT"]

/-- `get_sql_keywords`, from `lsp.rs`. -/
def getSqlKeywords : List String :=
  ["SELECT", "FROM", "WHERE", "INSERT", "INTO", "VALUES", "UPDATE", "SET",
   "DELETE", "CREATE", "TABLE", "DROP", "ALTER", "INDEX", "ON", "PRIMARY",
   "KEY", "FOREIGN", "REFERENCES", "UNIQUE", "NOT", "NULL", "DEFAULT", "CHECK",
   "AS", "JOIN", "INNER", "LEFT", "RIGHT", "OUTER", "CROSS", "GROUP", "BY",
   "HAVING", "ORDER", "LIMIT", "OFFSET", "UNION", "ALL", "DISTINCT", "AND",
   "OR", "IN", "BETWEEN", "LIKE", "GLOB", "CASE", "WHEN", "THEN", "ELSE",
   "END", "EXISTS", "PRAGMA", "BEGIN", "COMMIT", "ROLLBACK", "TRANSACTION",
   "SAVEPOINT", "RELEASE", "ATTACH", "DETACH", "DATABASE", "TEMPORARY", "TEMP",
   "VIEW", "TRIGGER", "IF", "AUTOINCREMENT", "EXPLAIN", "ASC", "DESC",
   "COLLATE", "NOCASE", "BINARY", "RTRIM", "ESCAPE", "ISNULL", "NOTNULL",
   "TRUE", "FALSE"]

/-- `get_sql_functions`, from `lsp.rs` (name and signature). -/
def getSqlFunctions : List (String × String) :=
  [("COUNT", "COUNT(expr) - Count rows"),
   ("SUM", "SUM(expr) - Sum of values"),
   ("AVG", "AVG(expr) - Average of values"),
   ("MIN", "MIN(expr) - Minimum value"),
   ("MAX", "MAX(expr) - Maximum value"),
   ("ABS", "ABS(x) - Absolute value"),
   ("COALESCE", "COALESCE(x, y, ...) - First non-null value"),
   ("IFNULL", "IFNULL(x, y) - y if x is null"),
   ("NULLIF", "NULLIF(x, y) - null if x equals y"),
   ("LENGTH", "LENGTH(str) - String length"),
   ("SUBSTR", "SUBSTR(str, start, len) - Substring"),
   ("UPPER", "UPPER(str) - Uppercase"),
   ("LOWER", "LOWER(str) - Lowercase"),
   ("TRIM", "TRIM(str) - Remove whitespace"),
   ("LTRIM", "LTRIM(str) - Remove leading whitespace"),
   ("RTRIM", "RTRIM(str) - Remove trailing whitespace"),
   ("REPLACE", "REPLACE(str, from, to) - Replace substring"),
   ("INSTR", "INSTR(str, substr) - Find substring position"),
   ("PRINTF", "PRINTF(format, ...) - Formatted string"),
   ("TYPEOF", "TYPEOF(expr) - Type of value"),
   ("ROUND", "ROUND(x, digits) - Round number"),
   ("RANDOM", "RANDOM() - Random integer"),
   ("DATETIME", "DATETIME(time, ...) - Date/time"),
   ("DATE", "DATE(time, ...) - Date"),
   ("TIME", "TIME(time, ...) - Time"),
   ("STRFTIME", "STRFTIME(format, time) - Format date/time"),
   ("JULIANDAY", "JULIANDAY(time) - Julian day number"),
   ("HEX", "HEX(blob) - Hexadecimal encoding"),
   ("QUOTE", "QUOTE(value) - SQL literal"),
   ("CAST", "CAST(expr AS type) - Type conversion"),
   ("GLOB", "GLOB(pattern, str) - Unix glob matching"),
   ("LIKE", "LIKE(pattern, str) - SQL pattern matching"),
   ("GROUP_CONCAT", "GROUP_CONCAT(expr, sep) - Concatenate group"),
   ("TOTAL", "TOTAL(expr) - Sum as float"),
   ("JSON", "JSON(value) - Parse JSON"),
   ("JSON_EXTRACT", "JSON_EXTRACT(json, path) - Extract from JSON"),
   ("JSON_ARRAY", "JSON_ARRAY(...) - Create JSON array"),
   ("JSON_OBJECT", "JSON_OBJECT(...) - Create JSON object")]

/-- The keyword set offered after a table name (TableContext branch). -/
def postTableKeywords : List String :=
  ["WHERE", "JOIN", "ON", "GROUP", "ORDER", "LIMIT", "HAVING", "INNER", "LEFT",
   "RIGHT", "OUTER", "CROSS", "AS", "SET", "VALUES", "SELECT"]

/-- The keyword set offered after a column expression (ColumnContext
branch). -/
def postColumnKeywords : List String :=
  ["FROM", "AS", "WHERE", "GROUP", "ORDER", "LIMIT"]

/-- The constraint keywords offered in TypeContext. -/
def constraintKeywords : List String :=
  ["PRIMARY", "KEY", "NOT", "NULL", "DEFAULT", "REFERENCES", "UNIQUE", "CHECK",
   "AUTOINCREMENT"]

/-- Rust `u8::is_ascii_whitespace` (used by the qualifier detection). -/
def isAsciiWs (c : Char) : Bool :=
  c = ' ' || c = '\t' || c = '\n' || c = '\x0d' || c = '\x0c'

/-- The backward whitespace skip of the qualifier detection in `completion`
(`while check_idx > 0 && ws { check_idx -= 1 }`). -/
def skipWsBack (t : List Char) : Nat → Nat
  | 0 => 0
  | j + 1 =>
    match t.get? (j + 1) with
    | some c => if isAsciiWs c then skipWsBack t j else j + 1
    | none => j + 1

/-- The dot-qualifier detection at the head of `completion`, from `lsp.rs`:
the identifier left of a `.` that precedes the current word (possibly across
ASCII whitespace). -/
def completionQualifier (text : String) (pos : Position) : Option String :=
  let chars := text.data
  let offset := positionToOffset text pos
  let ws := (getWordAtOffset chars offset).1
  if ws > 0 then
    let ci := skipWsBack chars (ws - 1)
    match chars.get? ci with
    | some '.' =>
      let q := (getWordAtOffset chars ci).2
      if q ≠ "" then some q else none
    | _ => none
  else none

/-- Qualifier resolution in `completion`: exact alias key, then
case-insensitive alias key, then case-insensitive cached table name. -/
def resolveQualifier (svc : SqlLspService) (aliases : List (String × String))
    (qual : String) : Option String :=
  (lookupA aliases qual).orElse fun _ =>
    (((aliases.find? (fun p => toLowerS p.1 = toLowerS qual)).map (·.2)).orElse fun _ =>
      svc.cached_tables.find? (fun t => toLowerS t = toLowerS qual))

/-- The first column pass of the ColumnContext branch: columns restricted to
the alias-bound tables (when any exist), deduplicated through the `seen`
set.  Returns the seen set and the emitted items. -/
def columnPass1 (cols : List ColumnInfo) (relevant : List String) (pl : String) :
    List String × List CompletionItem :=
  cols.foldl
    (fun acc col =>
      if relevant ≠ [] ∧ ¬ relevant.contains col.table then acc
      else if startsWithS (toLowerS col.name) pl ∧ ¬ acc.1.contains col.name then
        (col.name :: acc.1, acc.2 ++ [CompletionItem.columnItem col.name col.table col.type_])
      else acc)
    ([], [])

/-- The second column pass of the ColumnContext branch: all columns, skipping
names already in the `seen` set. -/
def columnPass2 (cols : List ColumnInfo) (pl : String) (seen : List String) :
    List String × List CompletionItem :=
  cols.foldl
    (fun acc col =>
      if acc.1.contains col.name then acc
      else if startsWithS (toLowerS col.name) pl then
        (col.name :: acc.1, acc.2 ++ [CompletionItem.columnItem col.name col.table col.type_])
      else acc)
    (seen, [])

/-- `completion`, from `lsp.rs`: qualified completion when an identifier-dot
pair precedes the current word, otherwise context classification and the
per-context candidate sets. -/
def completion (svc : SqlLspService) (text : String) (pos : Position) :
    List CompletionItem :=
  let chars := text.data
  let offset := positionToOffset text pos
  let pl := toLowerS (getWordAtOffset chars offset).2
  match completionQualifier text pos with
  | some qual =>
    let aliases := extract_tables_aliases chars
    match resolveQualifier svc aliases qual with
    | some tbl =>
      svc.cached_columns.foldl
        (fun items col =>
          if col.table = tbl ∧ startsWithS (toLowerS col.name) pl then
            items ++ [CompletionItem.columnItem col.name col.table col.type_]
          else items)
        []
    | none => []
  | none =>
    match detect_context chars offset with
    | SqlContext.tableCtx =>
      ((svc.cached_tables.filter (fun t => startsWithS (toLowerS t) pl)).map
          CompletionItem.tableItem)
        ++ ((postTableKeywords.filter (fun k => startsWithS (toLowerS k) pl)).map
            CompletionItem.keyword)
    | SqlContext.insertCtx =>
      if startsWithS "into" pl then [CompletionItem.keyword "INTO"] else []
    | SqlContext.columnCtx =>
      let aliases := extract_tables_aliases chars
      let relevant := aliases.map (·.2)
      let p1 := columnPass1 svc.cached_columns relevant pl
      let p2 :=
        if p1.2 = [] ∨ relevant = [] then (columnPass2 svc.cached_columns pl p1.1).2
        else []
      p1.2 ++ p2
        ++ ((getSqlFunctions.filter (fun f => startsWithS (toLowerS f.1) pl)).map fun f =>
            CompletionItem.functionItem f.1 (some f.2))
        ++ ((aliases.filter (fun a => startsWithS (toLowerS a.1) pl)).map fun a =>
            CompletionItem.tableItem a.1)
        ++ ((postColumnKeywords.filter (fun k => startsWithS (toLowerS k) pl)).map
            CompletionItem.keyword)
    | SqlContext.typeCtx =>
      ((getSqlTypes.filter (fun t => startsWithS (toLowerS t) pl)).map
          CompletionItem.typeItem)
        ++ ((constraintKeywords.filter (fun k => startsWithS (toLowerS k) pl)).map
            CompletionItem.keyword)
    | SqlContext.indexCtx =>
      ((svc.cached_indexes.filter (fun ix => startsWithS (toLowerS ix) pl)).map fun ix =>
          ({ label := ix, kind := CompletionItemKind.tableKind, detail := some "index",
             documentation := none, insert_text := none } : CompletionItem))
        ++ ((["IF", "EXISTS"].filter (fun k => startsWithS (toLowerS k) pl)).map
            CompletionItem.keyword)
    | SqlContext.dflt =>
      ((getSqlKeywords.filter (fun k => startsWithS (toLowerS k) pl)).map
          CompletionItem.keyword)
        ++ ((getSqlFunctions.filter (fun f => startsWithS (toLowerS f.1) pl)).map fun f =>
            CompletionItem.functionItem f.1 (some f.2))
        ++ ((svc.cached_tables.filter (fun t => startsWithS (toLowerS t) pl)).map
            CompletionItem.tableItem)

/-! ## Line-editor completion helper (src/completion.rs) -/

/-- The word-character test of `SqlCompleter::complete` in `completion.rs`:
unlike `get_word_at_offset`, the dot is a word character here
(`c.is_alphanumeric() || c == '_' || c == '.'`). -/
def isCompleteWordChar (c : Char) : Bool := c.isAlphanum || c = '_' || c = '.'

/-- The backward loop of `SqlCompleter::complete`: the replacement start
returned to the line editor. -/
def completeStart (line : List Char) : Nat → Nat
  | 0 => 0
  | n + 1 =>
    match line.get? n with
    | some c => if isCompleteWordChar c then completeStart line n else n + 1
    | none => n + 1

/-- Length of the maximal `[A-Za-z0-9_.]` run immediately left of `pos`
(specification-side characterization of `completeStart`). -/
def wordDotRunLen (line : List Char) (pos : Nat) : Nat :=
  ((line.take pos).reverse.takeWhile isCompleteWordChar).length

/-- Removal of exactly one trailing newline.  This is the operation the
specification ascribes to every formatter; it is compared against the
source's `trim_end`. -/
def removeOneTrailingNewline (s : String) : String :=
  if endsWithNL s then ⟨s.data.dropLast⟩ else s

/-- Whether a completion item is a column suggestion. -/
def isColumnItem (it : CompletionItem) : Bool :=
  it.kind = CompletionItemKind.columnKind

/-- The labels of the column suggestions in a completion list. -/
def columnLabels (items : List CompletionItem) : List String :=
  (items.filter isColumnItem).map (·.label)

/-- The schema cache of the specification's concrete scenarios (§8): tables
`users(id, name)` and `posts(id, user_id, title)`, index `idx_users_name`. -/
def specCache : SqlLspService :=
  { cached_tables := ["users", "posts"]
    cached_columns :=
      [⟨"users", "id", "INT", true, false, none⟩,
       ⟨"users", "name", "TEXT", false, true, none⟩,
       ⟨"posts", "id", "INT", true, false, none⟩,
       ⟨"posts", "user_id", "INT", false, true, none⟩,
       ⟨"posts", "title", "TEXT", false, true, none⟩]
    cached_create_sqls := []
    cached_indexes := ["idx_users_name"] }

/-- Whether a `.read` piece reaches the SQL executor (non-empty after
trimming and not a dot command). -/
def pieceIsSql (p : String) : Bool :=
  trimStr p ≠ "" && ¬ startsWithS (trimStr p) "."

/-- Whether a `.read` piece lets the loop continue to the next piece. -/
def pieceRunsOn (f : String → Bool) (p : String) : Bool :=
  if pieceIsSql p then f (trimStr p ++ ";")
  else if startsWithS (trimStr p) "." then
    match dotCommandResult (trimStr p) with
    | Except.ok CommandResult.cont => true
    | _ => false
  else true

/-- The SQL trace contributed by one `.read` piece that runs on. -/
def pieceTrace (p : String) : List String :=
  if pieceIsSql p then [trimStr p ++ ";"] else []

/-- The value the `is_inside_create_table` parenthesis loop computes on the
window after the `TABLE` token (specification-side name for the unclosed
open-parenthesis count, where an unmatched `)` is ignored). -/
def unclosedOpenParens (ts : List Token) : Nat := (parenDepthScan ts).2

/-! ## General helper lemmas -/

/-- A `takeWhile` prefix is no longer than the list. -/
theorem length_takeWhile_le_len {α : Type} (p : α → Bool) (l : List α) :
    (l.takeWhile p).length ≤ l.length := by
  induction l with
  | nil => simp [List.takeWhile]
  | cons c cs ih =>
    by_cases h : p c
    · simpa [List.takeWhile, h] using ih
    · simp [List.takeWhile, h]

/-- Appending a newline does not change `trim_end`. -/
theorem trimEndStr_append_newline (s : String) :
    trimEndStr (s ++ "\n") = trimEndStr s := by
  simp [trimEndStr, String.data_append]

/-- Appending the empty string on the right is the identity. -/
theorem string_append_empty (s : String) : s ++ "" = s := by
  cases s
  simp [String.instAppend, String.append]

/-! ## C1: the `.output` saved-mode slot -/

/-- Reverting to stdout restores the saved mode (or keeps the current one)
and always clears the slot. -/
theorem setOutput_none_fields (st : CliState) :
    ((set_output_file st none).1).output_mode = st.saved_output_mode.getD st.output_mode
      ∧ ((set_output_file st none).1).saved_output_mode = none := by
  simp only [set_output_file]
  cases h : st.saved_output_mode <;> simp [h]

/-- A populated slot is never overwritten by a further redirection. -/
theorem setOutput_some_keeps_saved (st : CliState) (p : String) (v : OutputMode)
    (h : st.saved_output_mode = some v) :
    ((set_output_file st (some p)).1).saved_output_mode = some v := by
  simp only [set_output_file]
  cases hm : inferredModeOfPath p with
  | none => simpa using h
  | some mode =>
    by_cases hne : mode = st.output_mode
    · simp [hne, h]
    · simp [hne, h]

/-- An auto-switching redirection from an empty slot saves the prior mode
and activates the inferred one. -/
theorem setOutput_some_autoswitch (st : CliState) (p : String) (m : OutputMode)
    (h0 : st.saved_output_mode = none) (hm : inferredModeOfPath p = some m)
    (hne : m ≠ st.output_mode) :
    ((set_output_file st (some p)).1).saved_output_mode = some st.output_mode
      ∧ ((set_output_file st (some p)).1).output_mode = m := by
  simp [set_output_file, hm, hne, h0]

/-- A redirection that infers no mode, or infers the active mode, leaves
both the mode and the slot untouched. -/
theorem setOutput_some_no_switch (st : CliState) (p : String)
    (h : inferredModeOfPath p = none ∨ inferredModeOfPath p = some st.output_mode) :
    ((set_output_file st (some p)).1).saved_output_mode = st.saved_output_mode
      ∧ ((set_output_file st (some p)).1).output_mode = st.output_mode := by
  rcases h with h | h <;> simp [set_output_file, h]

/-- One redirection preserves the mode-`m` invariant: either the slot is
empty and the active mode is `m`, or the slot holds `m`. -/
theorem setOutput_some_invariant (m : OutputMode) (st : CliState) (p : String)
    (h : st.saved_output_mode = none ∧ st.output_mode = m
      ∨ st.saved_output_mode = some m) :
    ((set_output_file st (some p)).1).saved_output_mode = none
        ∧ ((set_output_file st (some p)).1).output_mode = m
      ∨ ((set_output_file st (some p)).1).saved_output_mode = some m := by
  simp only [set_output_file]
  cases hm : inferredModeOfPath p with
  | none => simpa using h
  | some mode =>
    by_cases hne : mode = st.output_mode
    · simpa [hne] using h
    · rcases h with ⟨h1, h2⟩ | h1
      · subst h2
        simp [hne, h1]
      · simp [hne, h1]

/-- Any redirection sequence preserves the mode-`m` invariant. -/
theorem applyRedirects_invariant (m : OutputMode) :
    ∀ (paths : List String) (st : CliState),
      (st.saved_output_mode = none ∧ st.output_mode = m
        ∨ st.saved_output_mode = some m) →
      ((applyRedirects st paths).saved_output_mode = none
          ∧ (applyRedirects st paths).output_mode = m
        ∨ (applyRedirects st paths).saved_output_mode = some m) := by
  intro paths
  induction paths with
  | nil => intro st h; simpa [applyRedirects] using h
  | cons p ps ih =>
    intro st h
    have step := setOutput_some_invariant m st p h
    simpa [applyRedirects, List.foldl] using ih _ (by simpa [applyRedirects] using step)

/-- Claim C1: the saved output-mode slot is populated exactly by an
auto-switching `.output <file>` (never overwritten while populated, untouched
by non-switching redirections), and is restored and cleared exactly once when
output reverts to stdout; consequently, from any state with an empty slot,
after any sequence of redirections followed by `.output` with no argument the
active mode equals the starting mode. -/
theorem C1_saved_output_mode :
    (∀ (st : CliState) (p : String) (v : OutputMode),
        st.saved_output_mode = some v →
        ((set_output_file st (some p)).1).saved_output_mode = some v)
    ∧ (∀ (st : CliState) (p : String) (m : OutputMode),
        st.saved_output_mode = none → inferredModeOfPath p = some m →
        m ≠ st.output_mode →
        ((set_output_file st (some p)).1).saved_output_mode = some st.output_mode
          ∧ ((set_output_file st (some p)).1).output_mode = m)
    ∧ (∀ (st : CliState) (p : String),
        inferredModeOfPath p = none ∨ inferredModeOfPath p = some st.output_mode →
        ((set_output_file st (some p)).1).saved_output_mode = st.saved_output_mode
          ∧ ((set_output_file st (some p)).1).output_mode = st.output_mode)
    ∧ (∀ st : CliState,
        ((set_output_file st none).1).output_mode
            = st.saved_output_mode.getD st.output_mode
          ∧ ((set_output_file st none).1).saved_output_mode = none)
    ∧ (∀ (st : CliState) (paths : List String),
        st.saved_output_mode = none →
        ((set_output_file (applyRedirects st paths) none).1).output_mode
          = st.output_mode) := by
  refine ⟨setOutput_some_keeps_saved, setOutput_some_autoswitch,
    setOutput_some_no_switch, setOutput_none_fields, ?_⟩
  intro st paths h0
  have hinv := applyRedirects_invariant st.output_mode paths st (Or.inl ⟨h0, rfl⟩)
  have hrev := setOutput_none_fields (applyRedirects st paths)
  rcases hinv with ⟨h1, h2⟩ | h1
  · rw [hrev.1, h1, Option.getD_none, h2]
  · rw [hrev.1, h1, Option.getD_some]

/-- Witness for C1 at the specification's scenario 7: starting from the
default `table` mode, `.output out.csv` switches to `csv` saving `table`, and
a redirect sequence followed by a bare `.output` lands back on `table`. -/
theorem C1_saved_output_mode_witness :
    ((set_output_file (CliState.new "database.db" false) (some "out.csv")).1).saved_output_mode
        = some OutputMode.table
      ∧ ((set_output_file (CliState.new "database.db" false) (some "out.csv")).1).output_mode
        = OutputMode.csv
      ∧ ((set_output_file
            (applyRedirects (CliState.new "database.db" false)
              ["file.csv", "x.json", "notes.txt"]) none).1).output_mode
        = OutputMode.table :=
  ⟨(C1_saved_output_mode.2.1 _ "out.csv" OutputMode.csv rfl rfl (by decide)).1,
   (C1_saved_output_mode.2.1 _ "out.csv" OutputMode.csv rfl rfl (by decide)).2,
   C1_saved_output_mode.2.2.2.2 _ ["file.csv", "x.json", "notes.txt"] rfl⟩

/-! ## C2: the completion helper's replacement start -/

/-- Counterexample to claim C2 as stated: on the line `u.na` with the cursor
at 4, the current `[A-Za-z0-9_]` word is `na` (length 2), so the claim
predicts replacement start `4 - 2 = 2`; the helper scans over the dot and the
qualifier and returns 0. -/
theorem C2_replacement_start_counterexample :
    completeStart "u.na".data 4 = 0
      ∧ (getWordAtOffset "u.na".data 4).2 = "na"
      ∧ completeStart "u.na".data 4
          ≠ 4 - (getWordAtOffset "u.na".data 4).2.length := by
  refine ⟨by decide, by decide, by decide⟩

/-- Claim C2 as amended: the replacement start equals the cursor offset minus
the length of the maximal run of characters in `[A-Za-z0-9_.]` (dot included)
immediately left of the cursor, so a qualifier and its dot are part of the
replaced span. -/
theorem C2_replacement_start_amended (ln : List Char) (pos : Nat)
    (h : pos ≤ ln.length) :
    completeStart ln pos = pos - wordDotRunLen ln pos := by
  induction pos with
  | zero => simp [completeStart, wordDotRunLen]
  | succ n ih =>
    have hn : n < ln.length := h
    have hget : ln.get? n = some (ln[n]) := List.get?_eq_get hn
    have htake : ln.take (n + 1) = ln.take n ++ [ln[n]] := by
      rw [List.take_succ]
      simp [List.getElem?_eq_getElem hn]
    have hrev : (ln.take (n + 1)).reverse = ln[n] :: (ln.take n).reverse := by
      rw [htake, List.reverse_append]
      rfl
    simp only [completeStart, hget]
    by_cases hc : isCompleteWordChar (ln[n])
    · rw [if_pos hc, ih (Nat.le_of_lt hn)]
      have hL : wordDotRunLen ln n ≤ n := by
        calc wordDotRunLen ln n
            ≤ (ln.take n).reverse.length := length_takeWhile_le_len _ _
          _ = (ln.take n).length := by rw [List.length_reverse]
          _ ≤ n := by rw [List.length_take]; exact Nat.min_le_left _ _
      have hstep : wordDotRunLen ln (n + 1) = wordDotRunLen ln n + 1 := by
        simp [wordDotRunLen, hrev, List.takeWhile, hc]
      rw [hstep]
      omega
    · rw [if_neg hc]
      have hstep : wordDotRunLen ln (n + 1) = 0 := by
        simp [wordDotRunLen, hrev, List.takeWhile, hc]
      rw [hstep]
      omega

/-- Witness for the amended C2: on `SELECT u.na` at offset 11 the replaced
span is the 4-character run `u.na`, so the start is 7. -/
theorem C2_replacement_start_witness :
    completeStart "SELECT u.na".data 11 = 7
      ∧ wordDotRunLen "SELECT u.na".data 11 = 4 :=
  ⟨(C2_replacement_start_amended "SELECT u.na".data 11 (by decide)).trans (by decide),
   by decide⟩

/-! ## C6: idempotence of alias extraction -/

/-- Lookup after a single insertion: the inserted key maps to the inserted
value, all other keys are unaffected. -/
theorem lookupA_insertA (m : List (String × String)) (k v k' : String) :
    lookupA (insertA m k v) k' = if k' = k then some v else lookupA m k' := by
  induction m with
  | nil =>
    by_cases h : k' = k
    · simp [insertA, lookupA, List.find?, h]
    · simp [insertA, lookupA, List.find?, h, Ne.symm h]
  | cons q rest ih =>
    by_cases hqk : q.1 = k
    · by_cases h : k' = k
      · simp [insertA, lookupA, List.find?, hqk, h]
      · simp only [insertA, lookupA, List.find?, hqk, if_pos rfl]
        have hq' : ¬ (k = k') := fun he => h he.symm
        have hq2 : ¬ (q.1 = k') := by rw [hqk]; exact hq'
        simp [lookupA, List.find?, hq', hq2, h]
    · by_cases h : k' = k
      · subst h
        have : ¬ (q.1 = k') := hqk
        simp [insertA, lookupA, List.find?, hqk, this] at ih ⊢
        simpa using ih
      · by_cases hq : q.1 = k'
        · simp [insertA, lookupA, List.find?, hqk, hq, h]
        · simp only [insertA, lookupA, List.find?, hqk, if_neg hqk] at ih ⊢
          simp [lookupA, List.find?, hq, h] at ih ⊢
          simpa [h] using ih

/-- Lookup after folding a sequence of insertions: the last binding of the
key in the sequence wins, else the base map answers. -/
theorem lookupA_foldl_insert :
    ∀ (ps : List (String × String)) (m : List (String × String)) (k : String),
      lookupA (ps.foldl (fun m p => insertA m p.1 p.2) m) k
        = Option.orElse ((ps.reverse.find? (fun q => q.1 = k)).map (·.2))
            (fun _ => lookupA m k) := by
  intro ps
  induction ps with
  | nil => intro m k; simp [Option.orElse]
  | cons p ps ih =>
    intro m k
    have happ : (p :: ps).reverse = ps.reverse ++ [p] := by simp
    rw [List.foldl_cons, ih, happ, List.find?_append]
    cases hf : ps.reverse.find? (fun q => q.1 = k) with
    | some pr => simp [Option.orElse]
    | none =>
      simp only [Option.orElse, Option.map]
      rw [lookupA_insertA]
      by_cases h : k = p.1
      · simp [List.find?, h]
      · have : ¬ (p.1 = k) := fun he => h he.symm
        simp [List.find?, h, this]

/-- Counterexample to claim C6 as stated: concatenating the fragment
`FROM t` with itself glues the table word and the following `FROM` into one
token `tFROM`, so the extracted alias map differs from that of the single
fragment at the key `t`. -/
theorem C6_extract_counterexample :
    ("FROM t" ++ "FROM t" : String) = "FROM tFROM t"
      ∧ lookupA (extract_tables_aliases ("FROM t" ++ "FROM t").data) "t" = some "tFROM"
      ∧ lookupA (extract_tables_aliases "FROM t".data) "t" = some "t"
      ∧ ¬ (∀ k, lookupA (extract_tables_aliases ("FROM t" ++ "FROM t").data) k
            = lookupA (extract_tables_aliases "FROM t".data) k) :=
  ⟨by decide, by decide, by decide,
   fun hall => absurd (hall "t") (by decide)⟩

/-- Claim C6 as amended: alias extraction is idempotent in the sense that
replaying a fragment's own insertion sequence on top of its alias map changes
no binding (so clauses occurring more than once produce the same single
binding, as the `FROM t JOIN t` instance shows); textual self-concatenation,
however, need not preserve the map, because tokens glue at the junction. -/
theorem C6_extract_idempotence_amended :
    (∀ (text : List Char) (k : String),
        lookupA ((extractInserts (tokenize text)).foldl
            (fun m p => insertA m p.1 p.2) (extract_tables_aliases text)) k
          = lookupA (extract_tables_aliases text) k)
    ∧ extract_tables_aliases "FROM t JOIN t".data
        = extract_tables_aliases "FROM t".data := by
  constructor
  · intro text k
    have hbase : extract_tables_aliases text
        = (extractInserts (tokenize text)).foldl (fun m p => insertA m p.1 p.2) [] := rfl
    rw [lookupA_foldl_insert, hbase, lookupA_foldl_insert]
    cases hf : ((tokenize text |> extractInserts).reverse.find?
        (fun q => q.1 = k)).map (·.2) with
    | some v => simp [Option.orElse, hf]
    | none => simp [Option.orElse, hf]
  · decide

/-! ## C7: table-mode widths and truncation -/

/-- A list's entry at an in-range index is its `getD` value. -/
theorem get?_eq_some_getD {l : List Nat} {i : Nat} (hi : i < l.length) :
    l.get? i = some (l.getD i 0) := by
  cases hg : l.get? i with
  | none => exact absurd (List.get?_eq_get hi) (by rw [hg]; intro h; cases h)
  | some v => rw [List.getD_eq_get?, hg]; rfl

/-- The width-update fold preserves the length of the width list. -/
theorem bump_fold_length (nv : String) :
    ∀ (l : List (Nat × String)) (ws : List Nat),
      (l.foldl (fun ws p => ws.set p.1 (max (ws.getD p.1 0) (nullSub nv p.2).length))
          ws).length = ws.length := by
  intro l
  induction l with
  | nil => intro ws; rfl
  | cons p l ih => intro ws; rw [List.foldl_cons, ih, List.length_set]

/-- Entry-wise effect of one row's width-update fold, for an arbitrary
enumeration offset. -/
theorem bumpFrom_get (nv : String) (row : List String) :
    ∀ (k : Nat) (ws : List Nat) (i : Nat), i < ws.length →
      ((List.enumFrom k row).foldl
          (fun ws p => ws.set p.1 (max (ws.getD p.1 0) (nullSub nv p.2).length))
          ws).get? i
        = if i < k then ws.get? i
          else if i - k < row.length then
            some (max (ws.getD i 0) (nullSub nv (row.getD (i - k) "")).length)
          else ws.get? i := by
  induction row with
  | nil =>
    intro k ws i hi
    by_cases h : i < k <;> simp [List.enumFrom, h]
  | cons c row' ih =>
    intro k ws i hi
    simp only [List.enumFrom, List.foldl_cons]
    have hlen1 : (ws.set k (max (ws.getD k 0) (nullSub nv c).length)).length
        = ws.length := List.length_set ..
    rw [ih (k + 1) _ i (by rw [hlen1]; exact hi)]
    by_cases h1 : i < k
    · have h1' : i < k + 1 := Nat.lt_succ_of_lt h1
      rw [if_pos h1', if_pos h1, List.get?_set_ne _ _ (Nat.ne_of_gt h1)]
    · by_cases h2 : i = k
      · subst h2
        have h1' : i < i + 1 := Nat.lt_succ_self i
        rw [if_pos h1', if_neg h1]
        have : i - i = 0 := Nat.sub_self i
        rw [this, if_pos (by simp : (0:Nat) < (c :: row').length), List.getD_cons_zero]
        exact List.get?_set_eq_of_lt _ hi
      · have h3 : ¬ i < k + 1 := by omega
        have hik : 0 < i - k := by omega
        rw [if_neg h3, if_neg h1]
        have hgetD : (ws.set k (max (ws.getD k 0) (nullSub nv c).length)).getD i 0
            = ws.getD i 0 := by
          rw [List.getD_eq_get?, List.get?_set_ne _ _ (fun he => h2 he.symm),
            ← List.getD_eq_get?]
        have hget? : (ws.set k (max (ws.getD k 0) (nullSub nv c).length)).get? i
            = ws.get? i := List.get?_set_ne _ _ (fun he => h2 he.symm)
        have hsub : i - k = (i - (k + 1)) + 1 := by omega
        rw [hgetD, hget?, hsub]
        by_cases h4 : i - (k + 1) < row'.length
        · rw [if_pos h4, if_pos (by simpa using Nat.succ_lt_succ h4)]
          simp
        · rw [if_neg h4, if_neg (by simp; omega)]

/-- Entry-wise effect of `bumpWidthsTable` for an in-range column. -/
theorem bumpWidthsTable_get? (nv : String) (ws : List Nat) (row : List String)
    (i : Nat) (hi : i < ws.length) :
    (bumpWidthsTable nv ws row).get? i
      = if i < row.length then
          some (max (ws.getD i 0) (nullSub nv (row.getD i "")).length)
        else ws.get? i := by
  have h := bumpFrom_get nv row 0 ws i hi
  simp only [Nat.not_lt_zero, if_false, Nat.sub_zero] at h
  simpa [bumpWidthsTable, List.enum] using h

/-- `bumpWidthsTable` preserves the width-list length. -/
theorem bumpWidthsTable_length (nv : String) (ws : List Nat) (row : List String) :
    (bumpWidthsTable nv ws row).length = ws.length := by
  simpa [bumpWidthsTable] using bump_fold_length nv row.enum ws

/-- Entry-wise value of the accumulated row maxima in `format_table`. -/
theorem tableFold_get (nv : String) :
    ∀ (rows : List (List String)) (ws : List Nat) (i : Nat),
      i < ws.length → (∀ row ∈ rows, row.length = ws.length) →
      (rows.foldl (bumpWidthsTable nv) ws).get? i
        = some (max (ws.getD i 0)
            ((rows.map (fun row => (nullSub nv (row.getD i "")).length)).foldr max 0)) := by
  intro rows
  induction rows with
  | nil =>
    intro ws i hi _
    simpa using get?_eq_some_getD hi
  | cons row rows' ih =>
    intro ws i hi hlen
    have hrow : row.length = ws.length := hlen row (List.mem_cons_self ..)
    have hws' : (bumpWidthsTable nv ws row).length = ws.length :=
      bumpWidthsTable_length ..
    rw [List.foldl_cons,
      ih (bumpWidthsTable nv ws row) i (by rw [hws']; exact hi)
        (fun r hr => by rw [hws']; exact hlen r (List.mem_cons_of_mem _ hr))]
    have hbump : (bumpWidthsTable nv ws row).getD i 0
        = max (ws.getD i 0) (nullSub nv (row.getD i "")).length := by
      have := bumpWidthsTable_get? nv ws row i hi
      rw [if_pos (by rw [hrow]; exact hi)] at this
      rw [List.getD_eq_get?, this]
      rfl
    rw [hbump, List.map_cons, List.foldr_cons, Nat.max_assoc]

/-- Entry-wise value of the table-mode column widths: the accumulated
header/cell maximum capped at 50. -/
theorem tableWidths_get? (r : QueryResult) (st : CliState)
    (hrows : ∀ row ∈ r.rows, row.length = r.columns.length)
    (i : Nat) (hi : i < r.columns.length) :
    (tableWidths r st).get? i
      = some (min (max ((r.columns.get? i).getD "").length
          ((r.rows.map (fun row =>
            (nullSub st.null_value (row.getD i "")).length)).foldr max 0)) 50) := by
  obtain ⟨c, hc⟩ : ∃ c, r.columns.get? i = some c := by
    rw [List.get?_eq_get hi]; exact ⟨_, rfl⟩
  have hbase : (r.columns.map String.length).getD i 0 = c.length := by
    rw [List.getD_eq_get?, List.get?_map, hc]; rfl
  unfold tableWidths
  rw [List.get?_map,
    tableFold_get st.null_value r.rows (r.columns.map String.length) i
      (by simpa using hi) (fun row hr => by simpa using hrows row hr),
    hbase, hc]
  rfl

/-- Counterexample to claim C7 as stated: a 51-character cell in a
one-column table is truncated to 47 characters followed by the three ASCII
dots `...`; no `…` (U+2026) appears anywhere in the rendered table. -/
theorem C7_table_ellipsis_counterexample :
    truncate_string (⟨List.replicate 51 'x'⟩ : String) 50
        = (⟨List.replicate 47 'x'⟩ : String) ++ "..."
      ∧ (formatTable ⟨["a"], [[⟨List.replicate 51 'x'⟩]], none⟩
          (CliState.new "database.db" false)).data.contains '…' = false
      ∧ 50 < (⟨List.replicate 51 'x'⟩ : String).length :=
  ⟨by decide, by decide, by decide⟩

/-- Claim C7 as amended: each column's rendering width is the maximum cell
(and header) length capped at 50, and a cell longer than its column width is
truncated to width − 3 characters followed by the ASCII suffix `"..."`
(filling the width exactly) whenever the width exceeds 3 — always the case
for cells capped at 50; at widths of at most 3 the cell is cut with no
suffix. -/
theorem C7_table_truncation_amended :
    (∀ (s : String) (w : Nat), w < s.length → 3 < w →
        truncate_string s w = (⟨s.data.take (w - 3)⟩ : String) ++ "..."
          ∧ (truncate_string s w).length = w)
    ∧ (∀ (s : String) (w : Nat), w < s.length → w ≤ 3 →
        truncate_string s w = (⟨s.data.take w⟩ : String))
    ∧ (∀ (r : QueryResult) (st : CliState),
        (∀ row ∈ r.rows, row.length = r.columns.length) →
        ∀ i, i < r.columns.length →
        (tableWidths r st).get? i
          = some (min (max ((r.columns.get? i).getD "").length
              ((r.rows.map (fun row =>
                (nullSub st.null_value (row.getD i "")).length)).foldr max 0)) 50)) := by
  refine ⟨?_, ?_, tableWidths_get?⟩
  · intro s w hlt hw
    have h1 : ¬ s.length ≤ w := Nat.not_le_of_lt hlt
    have h2 : ¬ w ≤ 3 := Nat.not_le_of_lt hw
    constructor
    · simp [truncate_string, h1, h2]
    · simp only [truncate_string, h1, h2, if_false]
      have htail : ("..." : String).length = 3 := rfl
      have hlen : ((⟨s.data.take (w - 3)⟩ : String)).length = w - 3 := by
        simp only [String.length]
        rw [List.length_take]
        have hds : s.data.length = s.length := rfl
        omega
      rw [String.length_append, hlen, htail]
      omega
  · intro s w hlt hw
    have h1 : ¬ s.length ≤ w := Nat.not_le_of_lt hlt
    simp [truncate_string, h1, hw]

/-- Witness for the amended C7: the 51-`x` cell at width 50, and the widths
of the one-column table holding it. -/
theorem C7_table_truncation_witness :
    (truncate_string (⟨List.replicate 51 'x'⟩ : String) 50
          = (⟨List.replicate 47 'x'⟩ : String) ++ "..."
        ∧ (truncate_string (⟨List.replicate 51 'x'⟩ : String) 50).length = 50)
      ∧ (tableWidths ⟨["a"], [[⟨List.replicate 51 'x'⟩]], none⟩
          (CliState.new "database.db" false)).get? 0 = some 50 :=
  ⟨⟨((C7_table_truncation_amended.1 _ 50 (by decide) (by decide)).1).trans (by decide),
    (C7_table_truncation_amended.1 _ 50 (by decide) (by decide)).2⟩,
   (C7_table_truncation_amended.2.2 ⟨["a"], [[⟨List.replicate 51 'x'⟩]], none⟩
      (CliState.new "database.db" false) (by decide) 0 (by decide)).trans (by decide)⟩

/-! ## C8: trailing-newline handling of the formatters -/

/-- Counterexample to claim C8 as stated: in list mode with headers off, a
row whose cell ends in a space assembles the buffer `"a \n"`; removing
exactly one trailing newline would return `"a "`, but the formatter's
`trim_end` also removes the space and returns `"a"`. -/
theorem C8_trailing_newline_counterexample :
    formatList ⟨["c"], [["a "]], none⟩
        { CliState.new "database.db" false with
            show_headers := false, output_mode := OutputMode.list } = "a"
      ∧ formatListBuffer ⟨["c"], [["a "]], none⟩
          { CliState.new "database.db" false with
              show_headers := false, output_mode := OutputMode.list } = "a \n"
      ∧ removeOneTrailingNewline (formatListBuffer ⟨["c"], [["a "]], none⟩
          { CliState.new "database.db" false with
              show_headers := false, output_mode := OutputMode.list }) = "a "
      ∧ formatList ⟨["c"], [["a "]], none⟩
          { CliState.new "database.db" false with
              show_headers := false, output_mode := OutputMode.list }
        ≠ removeOneTrailingNewline (formatListBuffer ⟨["c"], [["a "]], none⟩
            { CliState.new "database.db" false with
                show_headers := false, output_mode := OutputMode.list }) :=
  ⟨by decide, by decide, by decide, by decide⟩

/-- Claim C8 as amended: the list, csv, line, jsonl, column and markdown
formatters return `trim_end` of their assembled buffer — removing the whole
trailing whitespace run, not exactly one newline — while the json and table
formatters return their buffer unchanged (it carries no trailing newline);
when the buffer is a string with no trailing whitespace followed by a single
newline, `trim_end` coincides with removing exactly that newline. -/
theorem C8_trailing_newline_amended :
    (∀ (r : QueryResult) (st : CliState),
        formatList r st = trimEndStr (formatListBuffer r st)
          ∧ formatCsv r st = trimEndStr (formatCsvBuffer r st)
          ∧ formatLine r st = trimEndStr (formatLineBuffer r st)
          ∧ formatJsonl r st = trimEndStr (formatJsonlBuffer r st)
          ∧ formatJson r st = formatJsonBuffer r st)
    ∧ (∀ (r : QueryResult) (st : CliState), r.rows ≠ [] →
        formatColumn r st = trimEndStr (formatColumnBuffer r st)
          ∧ formatTable r st = formatTableBuffer r st
          ∧ formatMarkdown r st = trimEndStr (formatMarkdownBuffer r st))
    ∧ (∀ s : String, (s.data.getLast?.all fun c => !c.isWhitespace) = true →
        trimEndStr (s.push '\n') = s
          ∧ removeOneTrailingNewline (s.push '\n') = s) := by
  refine ⟨fun r st => ⟨rfl, rfl, rfl, rfl, rfl⟩,
    fun r st h => ⟨by simp [formatColumn, h], by simp [formatTable, h],
      by simp [formatMarkdown, h]⟩, ?_⟩
  intro s hlast
  have hpush : (s.push '\n').data = s.data ++ ['\n'] := rfl
  constructor
  · unfold trimEndStr
    rw [hpush, List.reverse_append]
    have hdrop : List.dropWhile Char.isWhitespace ('\n' :: s.data.reverse)
        = List.dropWhile Char.isWhitespace s.data.reverse := by
      simp [List.dropWhile]
    have : (['\n'] : List Char).reverse ++ s.data.reverse = '\n' :: s.data.reverse := rfl
    rw [this, hdrop]
    cases ht : s.data.reverse with
    | nil =>
      have hnil : s.data = [] := by
        have := congrArg List.reverse ht
        simpa using this
      cases s
      simp_all
    | cons c t =>
      have hlc : s.data.getLast? = some c := by
        rw [← List.head?_reverse, ht]
        rfl
      have hcws : c.isWhitespace = false := by
        have := hlast
        rw [hlc] at this
        simpa [Option.all] using this
      rw [List.dropWhile_cons_of_neg (by simp [hcws])]
      rw [← ht]
      cases s
      simp
  · have hend : endsWithNL (s.push '\n') = true := by
      simp [endsWithNL, hpush]
    simp only [removeOneTrailingNewline, hend, if_true, hpush, List.dropLast_concat]

/-- Witness for the amended C8: the table formatter returns its buffer
unchanged for a one-row result, and `trim_end` strips exactly the final
newline from a clean buffer. -/
theorem C8_trailing_newline_witness :
    formatTable ⟨["a"], [["1"]], none⟩ (CliState.new "database.db" false)
        = formatTableBuffer ⟨["a"], [["1"]], none⟩ (CliState.new "database.db" false)
      ∧ trimEndStr (("ab" : String).push '\n') = "ab" :=
  ⟨(C8_trailing_newline_amended.2.1 ⟨["a"], [["1"]], none⟩
      (CliState.new "database.db" false) (by decide)).2.1,
   (C8_trailing_newline_amended.2.2 "ab" (by decide)).1⟩

/-! ## C10: zero-row results per formatter -/

/-- Claim C10: with zero rows the column, table, and markdown formatters
return the empty string even when headers are enabled, while the list and
csv formatters still emit the (trimmed) header row when headers are
enabled. -/
theorem C10_zero_rows (r : QueryResult) (st : CliState) (h : r.rows = []) :
    formatColumn r st = "" ∧ formatTable r st = "" ∧ formatMarkdown r st = ""
      ∧ (st.show_headers = true →
          formatList r st = trimEndStr (String.intercalate st.separator r.columns)
            ∧ formatCsv r st
              = trimEndStr (String.intercalate "," (r.columns.map escape_csv))) := by
  refine ⟨by simp [formatColumn, h], by simp [formatTable, h],
    by simp [formatMarkdown, h], fun hh => ⟨?_, ?_⟩⟩
  · show trimEndStr (formatListBuffer r st) = _
    unfold formatListBuffer
    rw [h, hh]
    simp only [List.map_nil, if_true]
    rw [show String.join [] = "" from rfl, string_append_empty,
      trimEndStr_append_newline]
  · show trimEndStr (formatCsvBuffer r st) = _
    unfold formatCsvBuffer
    rw [h, hh]
    simp only [List.map_nil, if_true]
    rw [show String.join [] = "" from rfl, string_append_empty,
      trimEndStr_append_newline]

/-- Witness for C10 on a two-column zero-row result with headers enabled. -/
theorem C10_zero_rows_witness :
    formatColumn ⟨["a", "b"], [], none⟩ (CliState.new "database.db" false) = ""
      ∧ formatTable ⟨["a", "b"], [], none⟩ (CliState.new "database.db" false) = ""
      ∧ formatMarkdown ⟨["a", "b"], [], none⟩ (CliState.new "database.db" false) = ""
      ∧ formatList ⟨["a", "b"], [], none⟩ (CliState.new "database.db" false) = "a|b"
      ∧ formatCsv ⟨["a", "b"], [], none⟩ (CliState.new "database.db" false) = "a,b" :=
  ⟨(C10_zero_rows _ _ rfl).1, (C10_zero_rows _ _ rfl).2.1,
   (C10_zero_rows _ _ rfl).2.2.1,
   ((C10_zero_rows ⟨["a", "b"], [], none⟩ (CliState.new "database.db" false)
      rfl).2.2.2 rfl).1.trans (by decide),
   ((C10_zero_rows ⟨["a", "b"], [], none⟩ (CliState.new "database.db" false)
      rfl).2.2.2 rfl).2.trans (by decide)⟩

/-! ## C9: `.read` control flow -/

/-- Counterexample to claim C9's bail conjunct: `cmd_read` never consults
the bail flag; with a failing first statement the error propagates through
`?` at once, so the remaining statement `GOOD;` is never handed to the
executor even though bail is off. -/
theorem C9_read_bail_counterexample :
    cmd_read (fun s => s ≠ "BAD;") "BAD;GOOD"
        = (ReadOutcome.err "execute failed: BAD;", ["BAD;"])
      ∧ "GOOD;" ∉ (cmd_read (fun s => s ≠ "BAD;") "BAD;GOOD").2 :=
  ⟨by decide, by decide⟩

/-- Claim C9 as amended: inside a `.read` script, a `.quit` terminates the
process and a `.open` raises an error without changing the database (both
discarding the rest of the script); any other statement error aborts the
remainder of the script immediately and unconditionally - the bail flag is
not consulted inside the script; the propagated error then reaches the REPL
loop, which aborts the session exactly when bail is set.  A clean prefix
composes: its trace is prepended and the rest of the script proceeds. -/
theorem C9_read_control_flow_amended :
    (∀ (f : String → Bool) (rest : List String),
        processReadPieces f (".quit" :: rest) = (ReadOutcome.exited, []))
    ∧ (∀ (f : String → Bool) (rest : List String),
        processReadPieces f (".open other.db" :: rest)
          = (ReadOutcome.err "Cannot change database inside .read", []))
    ∧ (∀ (f : String → Bool) (t : String) (rest : List String),
        trimStr t ≠ "" → startsWithS (trimStr t) "." = false →
        f (trimStr t ++ ";") = false →
        processReadPieces f (t :: rest)
          = (ReadOutcome.err ("execute failed: " ++ (trimStr t ++ ";")),
             [trimStr t ++ ";"]))
    ∧ (∀ (f : String → Bool) (pre rest : List String),
        (∀ p ∈ pre, pieceRunsOn f p = true) →
        processReadPieces f (pre ++ rest)
          = ((processReadPieces f rest).1,
             (pre.map pieceTrace).join ++ (processReadPieces f rest).2))
    ∧ (∀ st : CliState, replAbortsOnError st = st.bail) := by
  refine ⟨fun f rest => rfl, fun f rest => rfl, ?_, ?_, fun st => rfl⟩
  · intro f t rest h1 h2 hf
    simp only [processReadPieces]
    rw [if_pos ⟨h1, by simp [h2]⟩, if_neg (by simp [hf])]
  · intro f pre rest hpre
    induction pre with
    | nil => simp
    | cons p pre' ih =>
      have hp : pieceRunsOn f p = true := hpre p (List.mem_cons_self ..)
      have hrest : ∀ q ∈ pre', pieceRunsOn f q = true :=
        fun q hq => hpre q (List.mem_cons_of_mem _ hq)
      have ih2 : processReadPieces f (pre'.append rest)
          = ((processReadPieces f rest).1,
             (List.map pieceTrace pre').join ++ (processReadPieces f rest).2) :=
        ih hrest
      by_cases hsql : pieceIsSql p = true
      · have hcond : trimStr p ≠ "" ∧ ¬ startsWithS (trimStr p) "." = true := by
          simpa [pieceIsSql] using hsql
        have hok : f (trimStr p ++ ";") = true := by
          simpa [pieceRunsOn, hsql] using hp
        simp only [List.cons_append, processReadPieces]
        rw [if_pos hcond, if_pos hok, ih2]
        simp [pieceTrace, hsql]
      · have hsqlF : pieceIsSql p = false := by
          revert hsql
          cases pieceIsSql p <;> simp
        have hnot : ¬ (trimStr p ≠ "" ∧ ¬ startsWithS (trimStr p) "." = true) := by
          intro hc
          have hT : pieceIsSql p = true := by simp [pieceIsSql, hc.1, hc.2]
          rw [hsqlF] at hT
          cases hT
        by_cases hdot : startsWithS (trimStr p) "." = true
        · have hcont : dotCommandResult (trimStr p) = Except.ok CommandResult.cont := by
            have hp2 := hp
            simp only [pieceRunsOn, hsqlF, Bool.false_eq_true, if_false, hdot,
              if_true] at hp2
            revert hp2
            cases dotCommandResult (trimStr p) with
            | error e => simp
            | ok cr => cases cr <;> simp
          simp only [List.cons_append, processReadPieces]
          rw [if_neg hnot, if_pos hdot, hcont]
          show processReadPieces f (pre'.append rest) = _
          rw [ih2]
          simp [pieceTrace, hsqlF]
        · simp only [List.cons_append, processReadPieces]
          rw [if_neg hnot, if_neg (by simpa using hdot)]
          rw [ih2]
          simp [pieceTrace, hsqlF]

/-- Witness for the amended C9: a scripted `.quit` exits, a scripted `.open`
errors, a failing statement aborts the remainder, and a clean prefix
composes. -/
theorem C9_read_control_flow_witness :
    processReadPieces (fun _ => true) [".quit", "SELECT 2"]
        = (ReadOutcome.exited, [])
      ∧ processReadPieces (fun _ => true) [".open other.db", "SELECT 2"]
        = (ReadOutcome.err "Cannot change database inside .read", [])
      ∧ processReadPieces (fun s => s ≠ "BAD;") ["BAD", "GOOD"]
        = (ReadOutcome.err "execute failed: BAD;", ["BAD;"])
      ∧ processReadPieces (fun _ => true) (["SELECT 1"] ++ [".quit"])
        = ((processReadPieces (fun _ => true) [".quit"]).1,
           ((["SELECT 1"].map pieceTrace).join
             ++ (processReadPieces (fun _ => true) [".quit"]).2)) :=
  ⟨C9_read_control_flow_amended.1 (fun _ => true) ["SELECT 2"],
   C9_read_control_flow_amended.2.1 (fun _ => true) ["SELECT 2"],
   by
    have h := C9_read_control_flow_amended.2.2.1 (fun s => s ≠ "BAD;") "BAD" ["GOOD"]
      (by decide) (by decide) (by decide)
    simpa using h,
   C9_read_control_flow_amended.2.2.2.1 (fun _ => true) ["SELECT 1"] [".quit"]
     (by decide)⟩

/-! ## C3: qualified completion with an unresolved qualifier -/

/-- Claim C3: when the request is a dot completion whose qualifier matches
(case-insensitively) no alias or table binding of the fragment and no cached
table name, `completion` returns the empty candidate list without falling
through to unqualified completion. -/
theorem C3_qualified_unresolved_empty (svc : SqlLspService) (text : String)
    (pos : Position) (q : String)
    (hq : completionQualifier text pos = some q)
    (halias : ∀ p ∈ extract_tables_aliases text.data, toLowerS p.1 ≠ toLowerS q)
    (htab : ∀ t ∈ svc.cached_tables, toLowerS t ≠ toLowerS q) :
    completion svc text pos = [] := by
  have h1 : lookupA (extract_tables_aliases text.data) q = none := by
    unfold lookupA
    cases hf : (extract_tables_aliases text.data).find? (fun p => p.1 = q) with
    | none => rfl
    | some pr =>
      have hmem := List.mem_of_find?_eq_some hf
      have hpred : pr.1 = q := by simpa using List.find?_some hf
      exact absurd (by rw [hpred]) (halias pr hmem)
  have h2 : (extract_tables_aliases text.data).find?
      (fun p => toLowerS p.1 = toLowerS q) = none := by
    cases hf : (extract_tables_aliases text.data).find?
        (fun p => toLowerS p.1 = toLowerS q) with
    | none => rfl
    | some pr =>
      have hmem := List.mem_of_find?_eq_some hf
      have hpred : toLowerS pr.1 = toLowerS q := by simpa using List.find?_some hf
      exact absurd hpred (halias pr hmem)
  have h3 : svc.cached_tables.find? (fun t => toLowerS t = toLowerS q) = none := by
    cases hf : svc.cached_tables.find? (fun t => toLowerS t = toLowerS q) with
    | none => rfl
    | some t =>
      have hmem := List.mem_of_find?_eq_some hf
      have hpred : toLowerS t = toLowerS q := by simpa using List.find?_some hf
      exact absurd hpred (htab t hmem)
  have hres : resolveQualifier svc (extract_tables_aliases text.data) q = none := by
    unfold resolveQualifier
    rw [h1, h2, h3]
    rfl
  simp [completion, hq, hres]

/-- Witness for C3 at the specification's scenario 4: `SELECT u.` with no
`FROM` clause and the concrete schema cache yields the empty candidate
list. -/
theorem C3_qualified_unresolved_empty_witness :
    completion specCache "SELECT u." ⟨0, 9⟩ = [] :=
  C3_qualified_unresolved_empty specCache "SELECT u." ⟨0, 9⟩ "u"
    (by decide) (by decide) (by decide)

/-! ## C4: column-context deduplication -/

/-- Column labels distribute over append. -/
theorem columnLabels_append (a b : List CompletionItem) :
    columnLabels (a ++ b) = columnLabels a ++ columnLabels b := by
  simp [columnLabels, List.filter_append]

/-- A list of non-column items contributes no column labels. -/
theorem columnLabels_map_of_not {α : Type} (l : List α) (g : α → CompletionItem)
    (h : ∀ x, isColumnItem (g x) = false) : columnLabels (l.map g) = [] := by
  induction l with
  | nil => rfl
  | cons x l ih => simp [columnLabels, h x, List.filter_cons] at ih ⊢; exact ih

/-- A list of column items contributes exactly its labels. -/
theorem columnLabels_all_column (l : List CompletionItem)
    (h : ∀ it ∈ l, isColumnItem it = true) : columnLabels l = l.map (·.label) := by
  induction l with
  | nil => rfl
  | cons it l ih =>
    have hit := h it (List.mem_cons_self ..)
    simp only [columnLabels, List.filter_cons, hit, if_true, List.map_cons]
    have := ih (fun x hx => h x (List.mem_cons_of_mem _ hx))
    simp only [columnLabels] at this
    rw [this]

/-- Invariant of the first column pass, generalized over the accumulator:
all emitted items are column items, their labels are pairwise distinct, every
emitted label sits in the seen set, and the seen set only grows. -/
theorem pass1_fold_spec (relevant : List String) (pl : String) :
    ∀ (cols : List ColumnInfo) (acc : List String × List CompletionItem),
      (∀ it ∈ acc.2, isColumnItem it = true) →
      (acc.2.map (·.label)).Nodup →
      (∀ s ∈ acc.2.map (·.label), acc.1.contains s = true) →
      (∀ it ∈ (cols.foldl
          (fun acc col =>
            if relevant ≠ [] ∧ ¬ relevant.contains col.table then acc
            else if startsWithS (toLowerS col.name) pl ∧ ¬ acc.1.contains col.name then
              (col.name :: acc.1,
                acc.2 ++ [CompletionItem.columnItem col.name col.table col.type_])
            else acc) acc).2, isColumnItem it = true)
      ∧ ((cols.foldl
          (fun acc col =>
            if relevant ≠ [] ∧ ¬ relevant.contains col.table then acc
            else if startsWithS (toLowerS col.name) pl ∧ ¬ acc.1.contains col.name then
              (col.name :: acc.1,
                acc.2 ++ [CompletionItem.columnItem col.name col.table col.type_])
            else acc) acc).2.map (·.label)).Nodup
      ∧ (∀ s ∈ ((cols.foldl
          (fun acc col =>
            if relevant ≠ [] ∧ ¬ relevant.contains col.table then acc
            else if startsWithS (toLowerS col.name) pl ∧ ¬ acc.1.contains col.name then
              (col.name :: acc.1,
                acc.2 ++ [CompletionItem.columnItem col.name col.table col.type_])
            else acc) acc).2.map (·.label)),
          ((cols.foldl
          (fun acc col =>
            if relevant ≠ [] ∧ ¬ relevant.contains col.table then acc
            else if startsWithS (toLowerS col.name) pl ∧ ¬ acc.1.contains col.name then
              (col.name :: acc.1,
                acc.2 ++ [CompletionItem.columnItem col.name col.table col.type_])
            else acc) acc).1.contains s) = true) := by
  intro cols
  induction cols with
  | nil => intro acc h1 h2 h3; exact ⟨h1, h2, h3⟩
  | cons col cols' ih =>
    intro acc h1 h2 h3
    rw [List.foldl_cons]
    by_cases hskip : relevant ≠ [] ∧ ¬ relevant.contains col.table = true
    · rw [if_pos hskip]
      exact ih acc h1 h2 h3
    · rw [if_neg hskip]
      by_cases hadd : startsWithS (toLowerS col.name) pl ∧ ¬ acc.1.contains col.name = true
      · rw [if_pos hadd]
        have hfresh : acc.1.contains col.name = false := by
          revert hadd
          cases acc.1.contains col.name <;> simp
        refine ih _ ?_ ?_ ?_
        · intro it hit
          rcases List.mem_append.mp hit with hold | hnew
          · exact h1 it hold
          · simp only [List.mem_singleton] at hnew
            subst hnew
            rfl
        · rw [List.map_append]
          refine List.Nodup.append h2 (List.nodup_singleton _) ?_
          intro a ha hb
          have hb' : a = col.name := by
            simpa [CompletionItem.columnItem] using hb
          subst hb'
          have hcol := h3 col.name ha
          rw [hfresh] at hcol
          cases hcol
        · intro s hs
          rw [List.map_append] at hs
          rcases List.mem_append.mp hs with hold | hnew
          · have hmem : s ∈ acc.1 := List.mem_of_elem_eq_true (h3 s hold)
            simp only [List.contains_cons, Bool.or_eq_true, beq_iff_eq]
            right
            exact List.elem_eq_true_of_mem hmem
          · have hnew' : s = col.name := by
              simpa [CompletionItem.columnItem] using hnew
            subst hnew'
            simp [List.contains_cons]
      · rw [if_neg hadd]
        exact ih acc h1 h2 h3

/-- Invariant of the second column pass, generalized over the accumulator
and relative to a fixed starting seen set `seen0`: emitted items are column
items with distinct labels, no emitted label was in `seen0`, and the seen set
only grows above `seen0`. -/
theorem pass2_fold_spec (pl : String) (seen0 : List String) :
    ∀ (cols : List ColumnInfo) (acc : List String × List CompletionItem),
      (∀ it ∈ acc.2, isColumnItem it = true) →
      (acc.2.map (·.label)).Nodup →
      (∀ s ∈ acc.2.map (·.label), acc.1.contains s = true) →
      (∀ s, seen0.contains s = true → acc.1.contains s = true) →
      (∀ s ∈ acc.2.map (·.label), seen0.contains s = false) →
      (∀ it ∈ (cols.foldl
          (fun acc col =>
            if acc.1.contains col.name then acc
            else if startsWithS (toLowerS col.name) pl then
              (col.name :: acc.1,
                acc.2 ++ [CompletionItem.columnItem col.name col.table col.type_])
            else acc) acc).2, isColumnItem it = true)
      ∧ ((cols.foldl
          (fun acc col =>
            if acc.1.contains col.name then acc
            else if startsWithS (toLowerS col.name) pl then
              (col.name :: acc.1,
                acc.2 ++ [CompletionItem.columnItem col.name col.table col.type_])
            else acc) acc).2.map (·.label)).Nodup
      ∧ (∀ s ∈ ((cols.foldl
          (fun acc col =>
            if acc.1.contains col.name then acc
            else if startsWithS (toLowerS col.name) pl then
              (col.name :: acc.1,
                acc.2 ++ [CompletionItem.columnItem col.name col.table col.type_])
            else acc) acc).2.map (·.label)), seen0.contains s = false) := by
  intro cols
  induction cols with
  | nil => intro acc h1 h2 h3 h4 h5; exact ⟨h1, h2, h5⟩
  | cons col cols' ih =>
    intro acc h1 h2 h3 h4 h5
    rw [List.foldl_cons]
    by_cases hseen : acc.1.contains col.name = true
    · rw [if_pos hseen]
      exact ih acc h1 h2 h3 h4 h5
    · rw [if_neg hseen]
      have hfresh : acc.1.contains col.name = false := by
        revert hseen
        cases acc.1.contains col.name <;> simp
      by_cases hpfx : startsWithS (toLowerS col.name) pl = true
      · rw [if_pos hpfx]
        have hseen0 : seen0.contains col.name = false := by
          cases hs0 : seen0.contains col.name with
          | false => rfl
          | true => rw [h4 col.name hs0] at hfresh; cases hfresh
        refine ih _ ?_ ?_ ?_ ?_ ?_
        · intro it hit
          rcases List.mem_append.mp hit with hold | hnew
          · exact h1 it hold
          · simp only [List.mem_singleton] at hnew
            subst hnew
            rfl
        · rw [List.map_append]
          refine List.Nodup.append h2 (List.nodup_singleton _) ?_
          intro a ha hb
          have hb' : a = col.name := by
            simpa [CompletionItem.columnItem] using hb
          subst hb'
          have hcol := h3 col.name ha
          rw [hfresh] at hcol
          cases hcol
        · intro s hs
          rw [List.map_append] at hs
          rcases List.mem_append.mp hs with hold | hnew
          · have hmem : s ∈ acc.1 := List.mem_of_elem_eq_true (h3 s hold)
            simp only [List.contains_cons, Bool.or_eq_true, beq_iff_eq]
            right
            exact List.elem_eq_true_of_mem hmem
          · have hnew' : s = col.name := by
              simpa [CompletionItem.columnItem] using hnew
            subst hnew'
            simp [List.contains_cons]
        · intro s hs0
          have hmem : s ∈ acc.1 := List.mem_of_elem_eq_true (h4 s hs0)
          simp only [List.contains_cons, Bool.or_eq_true, beq_iff_eq]
          right
          exact List.elem_eq_true_of_mem hmem
        · intro s hs
          rw [List.map_append] at hs
          rcases List.mem_append.mp hs with hold | hnew
          · exact h5 s hold
          · have hnew' : s = col.name := by
              simpa [CompletionItem.columnItem] using hnew
            subst hnew'
            exact hseen0
      · rw [if_neg hpfx]
        exact ih acc h1 h2 h3 h4 h5

/-- The first column pass, in terms of the generic fold invariant. -/
theorem columnPass1_spec (cols : List ColumnInfo) (relevant : List String)
    (pl : String) :
    (∀ it ∈ (columnPass1 cols relevant pl).2, isColumnItem it = true)
      ∧ ((columnPass1 cols relevant pl).2.map (·.label)).Nodup
      ∧ (∀ s ∈ (columnPass1 cols relevant pl).2.map (·.label),
          (columnPass1 cols relevant pl).1.contains s = true) :=
  pass1_fold_spec relevant pl cols ([], [])
    (by intro it h; cases h) (List.nodup_nil) (by intro s h; cases h)

/-- The second column pass, in terms of the generic fold invariant. -/
theorem columnPass2_spec (cols : List ColumnInfo) (pl : String)
    (seen : List String) :
    (∀ it ∈ (columnPass2 cols pl seen).2, isColumnItem it = true)
      ∧ ((columnPass2 cols pl seen).2.map (·.label)).Nodup
      ∧ (∀ s ∈ (columnPass2 cols pl seen).2.map (·.label),
          seen.contains s = false) :=
  pass2_fold_spec pl seen cols (seen, [])
    (by intro it h; cases h) (List.nodup_nil) (by intro s h; cases h)
    (fun _ h => h) (by intro s h; cases h)

/-- Claim C4: in column context (with no qualifier), the completion list
contains each column name at most once — the alias-bound pass runs first and
the all-columns pass, which only runs when the first pass emitted nothing or
no alias-bound tables exist, skips every name already emitted; moreover when
the first pass is non-empty and alias-bound tables exist, the column
suggestions are exactly the first pass's. -/
theorem C4_column_context_dedup (svc : SqlLspService) (text : String)
    (pos : Position)
    (hq : completionQualifier text pos = none)
    (hctx : detect_context text.data (positionToOffset text pos)
      = SqlContext.columnCtx) :
    (columnLabels (completion svc text pos)).Nodup
      ∧ ((columnPass1 svc.cached_columns
            ((extract_tables_aliases text.data).map (·.2))
            (toLowerS (getWordAtOffset text.data (positionToOffset text pos)).2)).2 ≠ [] →
          (extract_tables_aliases text.data).map (·.2) ≠ [] →
          columnLabels (completion svc text pos)
            = ((columnPass1 svc.cached_columns
                ((extract_tables_aliases text.data).map (·.2))
                (toLowerS (getWordAtOffset text.data
                  (positionToOffset text pos)).2)).2.map (·.label))) := by
  have hcompl : completion svc text pos =
      (columnPass1 svc.cached_columns
          ((extract_tables_aliases text.data).map (·.2))
          (toLowerS (getWordAtOffset text.data (positionToOffset text pos)).2)).2
        ++ (if (columnPass1 svc.cached_columns
                ((extract_tables_aliases text.data).map (·.2))
                (toLowerS (getWordAtOffset text.data (positionToOffset text pos)).2)).2 = []
              ∨ (extract_tables_aliases text.data).map (·.2) = [] then
            (columnPass2 svc.cached_columns
              (toLowerS (getWordAtOffset text.data (positionToOffset text pos)).2)
              (columnPass1 svc.cached_columns
                ((extract_tables_aliases text.data).map (·.2))
                (toLowerS (getWordAtOffset text.data (positionToOffset text pos)).2)).1).2
          else [])
        ++ ((getSqlFunctions.filter (fun f => startsWithS (toLowerS f.1)
              (toLowerS (getWordAtOffset text.data (positionToOffset text pos)).2))).map
            fun f => CompletionItem.functionItem f.1 (some f.2))
        ++ (((extract_tables_aliases text.data).filter (fun a =>
              startsWithS (toLowerS a.1)
                (toLowerS (getWordAtOffset text.data (positionToOffset text pos)).2))).map
            fun a => CompletionItem.tableItem a.1)
        ++ ((postColumnKeywords.filter (fun k => startsWithS (toLowerS k)
              (toLowerS (getWordAtOffset text.data (positionToOffset text pos)).2))).map
            CompletionItem.keyword) := by
    simp only [completion, hq, hctx]
  obtain ⟨hk1, hn1, hc1⟩ := columnPass1_spec svc.cached_columns
    ((extract_tables_aliases text.data).map (·.2))
    (toLowerS (getWordAtOffset text.data (positionToOffset text pos)).2)
  obtain ⟨hk2, hn2, hf2⟩ := columnPass2_spec svc.cached_columns
    (toLowerS (getWordAtOffset text.data (positionToOffset text pos)).2)
    (columnPass1 svc.cached_columns
      ((extract_tables_aliases text.data).map (·.2))
      (toLowerS (getWordAtOffset text.data (positionToOffset text pos)).2)).1
  have hfuncs : columnLabels ((getSqlFunctions.filter (fun f =>
      startsWithS (toLowerS f.1)
        (toLowerS (getWordAtOffset text.data (positionToOffset text pos)).2))).map
      fun f => CompletionItem.functionItem f.1 (some f.2)) = [] :=
    columnLabels_map_of_not _ _ (fun _ => rfl)
  have haliases : columnLabels (((extract_tables_aliases text.data).filter (fun a =>
      startsWithS (toLowerS a.1)
        (toLowerS (getWordAtOffset text.data (positionToOffset text pos)).2))).map
      fun a => CompletionItem.tableItem a.1) = [] :=
    columnLabels_map_of_not _ _ (fun _ => rfl)
  have hkws : columnLabels ((postColumnKeywords.filter (fun k =>
      startsWithS (toLowerS k)
        (toLowerS (getWordAtOffset text.data (positionToOffset text pos)).2))).map
      CompletionItem.keyword) = [] :=
    columnLabels_map_of_not _ _ (fun _ => rfl)
  constructor
  · rw [hcompl, columnLabels_append, columnLabels_append, columnLabels_append,
      columnLabels_append, hfuncs, haliases, hkws]
    simp only [List.append_nil]
    rw [columnLabels_all_column _ hk1]
    by_cases hcond : (columnPass1 svc.cached_columns
          ((extract_tables_aliases text.data).map (·.2))
          (toLowerS (getWordAtOffset text.data (positionToOffset text pos)).2)).2 = []
        ∨ (extract_tables_aliases text.data).map (·.2) = []
    · rw [if_pos hcond, columnLabels_all_column _ hk2]
      refine List.Nodup.append hn1 hn2 ?_
      intro a ha hb
      have h1 := hc1 a ha
      have h2 := hf2 a hb
      rw [h1] at h2
      cases h2
    · rw [if_neg hcond, show columnLabels ([] : List CompletionItem) = [] from rfl,
        List.append_nil]
      exact hn1
  · intro hne1 hne2
    rw [hcompl, columnLabels_append, columnLabels_append, columnLabels_append,
      columnLabels_append, hfuncs, haliases, hkws,
      if_neg (by simp [hne1, hne2]),
      show columnLabels ([] : List CompletionItem) = [] from rfl]
    simp only [List.append_nil]
    rw [columnLabels_all_column _ hk1]

/-- Witness for C4 at the specification's scenario: a join over both cached
tables yields the deduplicated column set, equal to the first pass's
labels. -/
theorem C4_column_context_dedup_witness :
    (columnLabels (completion specCache
        "SELECT id, title FROM users JOIN posts ON " ⟨0, 42⟩)).Nodup
      ∧ columnLabels (completion specCache
          "SELECT id, title FROM users JOIN posts ON " ⟨0, 42⟩)
        = ["id", "name", "user_id", "title"] :=
  ⟨(C4_column_context_dedup specCache
      "SELECT id, title FROM users JOIN posts ON " ⟨0, 42⟩
      (by decide) (by decide)).1,
   (((C4_column_context_dedup specCache
      "SELECT id, title FROM users JOIN posts ON " ⟨0, 42⟩
      (by decide) (by decide)).2 (by decide) (by decide)).trans (by decide))⟩

/-! ## C5: CREATE TABLE column-definition classification -/

/-- The parenthesis fold cannot reach a positive depth without having seen an
opening parenthesis. -/
theorem parenScan_fold_zero :
    ∀ (ts : List Token) (acc : Bool × Nat), (acc.1 = false → acc.2 = 0) →
      ((ts.foldl
          (fun (p : Bool × Nat) t =>
            match t with
            | Token.lparen => (true, p.2 + 1)
            | Token.rparen => (p.1, if p.2 > 0 then p.2 - 1 else p.2)
            | _ => p) acc).1 = false →
        (ts.foldl
          (fun (p : Bool × Nat) t =>
            match t with
            | Token.lparen => (true, p.2 + 1)
            | Token.rparen => (p.1, if p.2 > 0 then p.2 - 1 else p.2)
            | _ => p) acc).2 = 0) := by
  intro ts
  induction ts with
  | nil => intro acc hacc; exact hacc
  | cons t rest ih =>
    intro acc hacc
    rw [List.foldl_cons]
    cases t with
    | lparen => exact ih _ (by intro h; cases h)
    | rparen =>
      refine ih _ ?_
      intro h
      have h0 := hacc h
      simp [h0]
    | word s => exact ih _ hacc
    | num s => exact ih _ hacc
    | squoted s => exact ih _ hacc
    | comma => exact ih _ hacc
    | period => exact ih _ hacc
    | wsp => exact ih _ hacc
    | other c => exact ih _ hacc

/-- A window with exactly one unclosed parenthesis has an opening
parenthesis. -/
theorem parenDepthScan_open_of_one (ts : List Token)
    (h : (parenDepthScan ts).2 = 1) : (parenDepthScan ts).1 = true := by
  cases hb : (parenDepthScan ts).1 with
  | true => rfl
  | false =>
    have h2 : (parenDepthScan ts).2 = 0 :=
      parenScan_fold_zero ts (false, 0) (fun _ => rfl) hb
    rw [h2] at h
    omega

/-- A clause scan from a comma never yields the type context. -/
theorem commaClauseScan_ne_type :
    ∀ ts : List Token, commaClauseScan ts ≠ some SqlContext.typeCtx := by
  intro ts
  induction ts with
  | nil => simp [commaClauseScan]
  | cons t rest ih =>
    intro h
    cases t with
    | word w =>
      simp only [commaClauseScan] at h
      split at h
      · simp at h
      · split at h
        · simp at h
        · split at h
          · simp at h
          · exact ih h
    | num s => exact ih (by simpa [commaClauseScan] using h)
    | squoted s => exact ih (by simpa [commaClauseScan] using h)
    | lparen => exact ih (by simpa [commaClauseScan] using h)
    | rparen => exact ih (by simpa [commaClauseScan] using h)
    | comma => exact ih (by simpa [commaClauseScan] using h)
    | period => exact ih (by simpa [commaClauseScan] using h)
    | wsp => exact ih (by simpa [commaClauseScan] using h)
    | other c => exact ih (by simpa [commaClauseScan] using h)

/-- The single-token dispatch never yields the type context. -/
theorem singleTokenDispatch_ne_type (tokens : List Token) :
    singleTokenDispatch tokens ≠ some SqlContext.typeCtx := by
  intro h
  unfold singleTokenDispatch at h
  cases hprev : prevNonWs tokens tokens.length with
  | none => rw [hprev] at h; cases h
  | some tok =>
    rw [hprev] at h
    cases tok with
    | word w =>
      dsimp only at h
      repeat' split at h
      all_goals simp_all
    | comma =>
      dsimp only at h
      repeat' split at h
      all_goals first
        | exact commaClauseScan_ne_type _ h
        | simp_all
    | lparen =>
      dsimp only at h
      repeat' split at h
      all_goals simp_all
    | num s => cases h
    | squoted s => cases h
    | rparen => cases h
    | period => cases h
    | wsp => cases h
    | other c => cases h

/-- Members of an enumeration point back at the underlying list. -/
theorem mem_enumFrom_get? {α : Type} :
    ∀ (l : List α) (n : Nat) (p : Nat × α), p ∈ List.enumFrom n l →
      n ≤ p.1 ∧ l.get? (p.1 - n) = some p.2 := by
  intro l
  induction l with
  | nil => intro n p hp; simp [List.enumFrom] at hp
  | cons a l ih =>
    intro n p hp
    simp only [List.enumFrom] at hp
    rcases List.mem_cons.mp hp with he | ht
    · subst he
      exact ⟨Nat.le_refl _, by simp⟩
    · obtain ⟨h1, h2⟩ := ih (n + 1) p ht
      refine ⟨Nat.le_of_succ_le h1, ?_⟩
      have hsub : p.1 - n = (p.1 - (n + 1)) + 1 := by omega
      rw [hsub]
      simpa using h2

/-- The reverse scan yields the type context only when the CREATE TABLE
probe succeeds on some scanned word token. -/
theorem revScanGo_type_probe (tokens : List Token) :
    ∀ (items : List (Nat × Token)) (count depth : Nat),
      (∀ p ∈ items, tokens.get? p.1 = some p.2) →
      revScanGo tokens items count depth = some SqlContext.typeCtx →
      ∃ idx w, tokens.get? idx = some (Token.word w)
        ∧ is_inside_create_table tokens idx = true := by
  intro items
  induction items with
  | nil => intro count depth _ h; cases h
  | cons pr rest ih =>
    intro count depth hmem h
    obtain ⟨idx, t⟩ := pr
    have hmemh := hmem (idx, t) (List.mem_cons_self ..)
    have hmemr : ∀ p ∈ rest, tokens.get? p.1 = some p.2 :=
      fun p hp => hmem p (List.mem_cons_of_mem _ hp)
    cases t with
    | wsp => exact ih _ _ hmemr h
    | word w =>
      dsimp only [revScanGo] at h
      split at h
      · cases h
      · repeat' split at h
        all_goals first
          | exact ih _ _ hmemr h
          | exact ⟨idx, w, hmemh, by assumption⟩
          | simp_all
    | rparen =>
      dsimp only [revScanGo] at h
      split at h
      · cases h
      · exact ih _ _ hmemr h
    | lparen =>
      dsimp only [revScanGo] at h
      split at h
      · cases h
      · split at h
        · exact ih _ _ hmemr h
        · split at h
          · simp at h
          · split at h
            · simp at h
            · exact ih _ _ hmemr h
    | num s =>
      dsimp only [revScanGo] at h
      split at h
      · cases h
      · exact ih _ _ hmemr h
    | squoted s =>
      dsimp only [revScanGo] at h
      split at h
      · cases h
      · exact ih _ _ hmemr h
    | comma =>
      dsimp only [revScanGo] at h
      split at h
      · cases h
      · exact ih _ _ hmemr h
    | period =>
      dsimp only [revScanGo] at h
      split at h
      · cases h
      · exact ih _ _ hmemr h
    | other c =>
      dsimp only [revScanGo] at h
      split at h
      · cases h
      · exact ih _ _ hmemr h

/-- The classifier yields the type context only via a successful CREATE
TABLE probe on some word token of the prefix. -/
theorem detectContextTokens_type_probe (tokens : List Token)
    (h : detectContextTokens tokens = SqlContext.typeCtx) :
    ∃ idx w, tokens.get? idx = some (Token.word w)
      ∧ is_inside_create_table tokens idx = true := by
  unfold detectContextTokens at h
  by_cases hnil : tokens = []
  · rw [if_pos hnil] at h
    cases h
  · rw [if_neg hnil] at h
    cases hd : singleTokenDispatch tokens with
    | some ctx =>
      rw [hd] at h
      dsimp only at h
      subst h
      exact absurd hd (singleTokenDispatch_ne_type tokens)
    | none =>
      rw [hd] at h
      dsimp only at h
      have hmem : ∀ p ∈ tokens.enum.reverse, tokens.get? p.1 = some p.2 := by
        intro p hp
        have hp' : p ∈ tokens.enum := List.mem_reverse.mp hp
        have := mem_enumFrom_get? tokens 0 p (by simpa [List.enum] using hp')
        simpa using this.2
      cases hr : revScanGo tokens tokens.enum.reverse 0 0 with
      | some ctx =>
        rw [hr] at h
        dsimp only at h
        subst h
        exact revScanGo_type_probe tokens _ 0 0 hmem hr
      | none =>
        rw [hr] at h
        cases h

/-- Counterexample to claim C5 as stated: on `CREATE TABLE t (a xx) zz`
(cursor at the end) the last word `zz` is neither a clause keyword nor a
delimiter, the classifier yields TypeCtx, yet zero parentheses opened after
the `TABLE` token are still unclosed at the cursor — the probe succeeded at
the earlier word `xx`, whose window stops before the closing parenthesis. -/
theorem C5_typectx_counterexample :
    detect_context "CREATE TABLE t (a xx) zz".data 24 = SqlContext.typeCtx
      ∧ lastCreateTableIdx (tokenize "CREATE TABLE t (a xx) zz".data)
          (tokenize "CREATE TABLE t (a xx) zz".data).length = some 2
      ∧ unclosedOpenParens ((tokenize "CREATE TABLE t (a xx) zz".data).drop 3) = 0 :=
  ⟨by decide, by decide, by decide⟩

/-- Claim C5 as amended: the CREATE TABLE probe run on a scanned word at
index `i` succeeds exactly when a `CREATE ... TABLE` occurs before `i` and
exactly one parenthesis opened after that `TABLE` token is still unclosed at
`i` (the check extends only up to the probed word, not the cursor); TypeCtx
is produced only through a successful probe on some scanned word; in
particular `"CREATE TABLE t (id "` at offset 19 classifies as TypeCtx, and
completion there offers the fixed type set followed by the constraint
keywords. -/
theorem C5_typectx_amended :
    (∀ (tokens : List Token) (idx : Nat),
        is_inside_create_table tokens idx = true ↔
          ∃ j, lastCreateTableIdx tokens idx = some j
            ∧ unclosedOpenParens
                ((tokens.take (min (idx + 1) tokens.length)).drop (j + 1)) = 1)
    ∧ (∀ tokens : List Token, detectContextTokens tokens = SqlContext.typeCtx →
        ∃ idx w, tokens.get? idx = some (Token.word w)
          ∧ is_inside_create_table tokens idx = true)
    ∧ detect_context "CREATE TABLE t (id ".data 19 = SqlContext.typeCtx
    ∧ completion specCache "CREATE TABLE t (id " ⟨0, 19⟩
        = (getSqlTypes.map CompletionItem.typeItem)
          ++ (constraintKeywords.map CompletionItem.keyword) := by
  refine ⟨?_, detectContextTokens_type_probe, by decide, by decide⟩
  intro tokens idx
  unfold is_inside_create_table unclosedOpenParens
  cases hlast : lastCreateTableIdx tokens idx with
  | none => simp
  | some start =>
    constructor
    · intro hb
      have hprop := of_decide_eq_true hb
      exact ⟨start, rfl, hprop.2⟩
    · rintro ⟨j, hj, hcount⟩
      have hj' : j = start := by injection hj with hj'; exact hj'.symm
      subst hj'
      exact decide_eq_true ⟨parenDepthScan_open_of_one _ hcount, hcount⟩

/-- Witness for the amended C5: the probe characterization instantiated at
`"CREATE TABLE t (id "` (the `id` token sits at index 7, the `TABLE` token
at index 2, and one parenthesis is open), together with the provenance
conclusion at the same prefix. -/
theorem C5_typectx_witness :
    is_inside_create_table (tokenize "CREATE TABLE t (id ".data) 7 = true
      ∧ (∃ idx w, (tokenize "CREATE TABLE t (id ".data).get? idx
            = some (Token.word w)
          ∧ is_inside_create_table (tokenize "CREATE TABLE t (id ".data) idx
            = true) :=
  ⟨(C5_typectx_amended.1 (tokenize "CREATE TABLE t (id ".data) 7).mpr
      ⟨2, by decide, by decide⟩,
   C5_typectx_amended.2.1 (tokenize "CREATE TABLE t (id ".data) (by decide)⟩

end Rsqlite3
